import Mathlib

/-!
# ch554_esp_uploader: host transfer engine and device dispatcher

A shallow embedding of `src-pc/libusb_port.c` (host side) and `src/main.c`
(device firmware).

Conventions of the embedding.

* `uint8_t` values are natural numbers (`Byte`); C `int` values are integers.
  The two scalings `timeout *= 1000` and `duration *= 1000` are wrapped to
  32 bits (`int32`); every other `int` computation of the modelled functions
  stays inside the 32-bit range once the scaled value is.
* The global variables of `libusb_port.c` are the fields of `Host`.  A store
  past the end of a C array is undefined behaviour; the host `writeUart`, the
  one function that can make such a store on well-formed states, has no result
  (`none`) in that case.
* `libusb_control_transfer` is an external collaborator. It is a parameter
  (`Transport`): a deterministic mock that answers the `i`-th control transfer
  of a run.  The host state carries two ghost fields, `xfers` (how many
  control transfers were made) and `trace` (every control transfer and every
  `usleep`, in program order).
* Loops that the C code may run forever (`waitForFinish`, `flushUart`) take a
  fuel argument and return `none` when it runs out.  Loops with an evident
  bound are total functions whose recursion counter is that bound.
* The firmware is a state machine over `Device`: the interrupt handlers and one
  iteration of the main loop are functions on the state, an iteration being
  one during which no interrupt fires.  Register setup (timers, USB endpoint,
  interrupt enables) is not modelled; the UART baud rate is the field `baud`.
* `printf`/`info` output is not modelled.
-/

namespace EspUploader

/-! ## Constants -/

/-- A `uint8_t` value. -/
abbrev Byte := Nat

def MAX_PACKET_LEN : Nat := 32
def COMMAND_GET_PROGRESS : Nat := 0
def COMMAND_READ_UART : Nat := 1
def COMMAND_WRITE_UART : Nat := 2
def COMMAND_SET_GPIO : Nat := 3
def COMMAND_SET_BAUDR : Nat := 4
def COMMAND_JUMP_TO_BOOTLOADER : Nat := 176

/-- Size of `writeBuf`: `uint8_t writeBuf[4* 1024]`. -/
def WRITE_BUF_SIZE : Nat := 4 * 1024

/-- Two's-complement reading of an integer as a 32-bit C `int`. -/
def int32 (x : Int) : Int := (x + 2147483648) % 4294967296 - 2147483648

/-- The result type `esp_loader_error_t` of the serial-flasher port layer
(declared in `serial_io.h`, which is outside this repository): only the three
values used by `libusb_port.c` are named, with `ESP_LOADER_SUCCESS = 0`. -/
inductive esp_loader_error_t
  | ESP_LOADER_SUCCESS
  | ESP_LOADER_ERROR_FAIL
  | ESP_LOADER_ERROR_TIMEOUT
  | other (code : Int)
  deriving DecidableEq, Repr

open esp_loader_error_t

/-- Conversion of an `int` to `esp_loader_error_t` (enum order of the
serial-flasher library: success 0, fail 1, timeout 2). -/
def errorOfInt (r : Int) : esp_loader_error_t :=
  if r = 0 then ESP_LOADER_SUCCESS
  else if r = 1 then ESP_LOADER_ERROR_FAIL
  else if r = 2 then ESP_LOADER_ERROR_TIMEOUT
  else other r

/-! ## Transport and host state -/

/-- One observable action of the host: a control transfer or a sleep. -/
inductive Event
  | ctrlOut (command param1 param2 : Nat) (payload : List Byte) (ret : Int)
  | ctrlIn (command param1 param2 : Nat) (ret : Int) (buf : List Byte)
  | usleep (us : Int)
  deriving DecidableEq, Repr

/-- A mock of `libusb_control_transfer`.  `out i command param1 param2 payload`
is the return value of the `i`-th transfer of the run when it is a
host-to-device transfer; `inp i command param1 param2` is the return value and
the bytes the device stores in the receive buffer when it is a device-to-host
transfer. -/
structure Transport where
  out : Nat → Nat → Nat → Nat → List Byte → Int
  inp : Nat → Nat → Nat → Nat → Int × List Byte

/-- The write statistics counters of `libusb_port.c`. -/
structure WriteStat where
  writeStatCnt : Int
  writeStatTotal : Int
  writeStatMin : Int
  writeStatMax : Int
  writeStat : List Int
  deriving DecidableEq, Repr

/-- The global state of `libusb_port.c`, with the ghost fields `xfers` and
`trace`. -/
structure Host where
  outBuf : List Byte
  resBuf : List Byte
  resBufPos : Nat
  resBufMax : Nat
  writeBuf : List Byte
  writeBufPos : Nat
  readDelay : Int
  stat : WriteStat
  xfers : Nat
  trace : List Event
  deriving DecidableEq, Repr

/-- State after `loader_port_usb_init`: zero-initialised buffers, the
counters as set by the initialisation code, nothing on the wire yet. -/
def Host.init : Host where
  outBuf := List.replicate MAX_PACKET_LEN 0
  resBuf := List.replicate MAX_PACKET_LEN 0
  resBufPos := 0
  resBufMax := 0
  writeBuf := List.replicate WRITE_BUF_SIZE 0
  writeBufPos := 0
  readDelay := 0
  stat := ⟨0, 0, 16777215, 0, List.replicate 33 0⟩
  xfers := 0
  trace := []

/-- The effect of `memcpy(dst + off, src, src.length)` on the array `dst`:
stores that fall behind the end of `dst` are outside the modelled memory. -/
def blit (dst : List Byte) (off : Nat) (src : List Byte) : List Byte :=
  (dst.take off ++ src ++ dst.drop (off + src.length)).take dst.length

/-- Records `usleep(us)`. -/
def usleep (s : Host) (us : Int) : Host :=
  { s with trace := s.trace ++ [Event.usleep us] }

/-- Embeds `loader_port_delay_ms`: `usleep(ms * 1000)`. -/
def loader_port_delay_ms (s : Host) (ms : Int) : Host :=
  usleep s (ms * 1000)

/-- Embeds `sendControlTransfer`: a host-to-device control transfer carrying
the first `len` bytes of `outBuf`. -/
def sendControlTransfer (tp : Transport) (s : Host) (command param1 param2 len : Nat) :
    Int × Host :=
  let payload := s.outBuf.take len
  let ret := tp.out s.xfers command param1 param2 payload
  (ret, { s with xfers := s.xfers + 1,
                 trace := s.trace ++ [Event.ctrlOut command param1 param2 payload ret] })

/-- Embeds `recvControlTransfer`: `resBuf` is zeroed, then the device-to-host
transfer stores the device's bytes at its start. -/
def recvControlTransfer (tp : Transport) (s : Host) (command param1 param2 : Nat) :
    Int × Host :=
  let r := tp.inp s.xfers command param1 param2
  let buf := (r.2 ++ List.replicate MAX_PACKET_LEN 0).take MAX_PACKET_LEN
  (r.1, { s with resBuf := buf, xfers := s.xfers + 1,
                 trace := s.trace ++ [Event.ctrlIn command param1 param2 r.1 buf] })

/-- Embeds `usbIoFinished`: the progress byte `resBuf[0]` of a GetProgress
query, whatever the transfer returned. -/
def usbIoFinished (tp : Transport) (s : Host) : Int × Host :=
  let r := recvControlTransfer tp s COMMAND_GET_PROGRESS 0 0
  ((r.2.resBuf.getD 0 0 : Nat), r.2)

/-- The `while (timeout > 0)` loop of `waitForFinish`. -/
def waitLoop (tp : Transport) : Nat → Host → Int → Int → Int → Option (Int × Host)
  | 0, _, _, _, _ => none
  | fuel + 1, s, step, errorState, timeout =>
    if 0 < timeout then
      let r := usbIoFinished tp s
      if r.1 = 0 then some (timeout, r.2)
      else if errorState ≠ 0 ∧ r.1 = errorState then some (r.1, r.2)
      else
        let timeout1 := timeout - step
        let s2 := if 0 < timeout1 then usleep r.2 step else r.2
        waitLoop tp fuel s2 step errorState timeout1
    else some (0, s)

/-- Embeds `waitForFinish`. -/
def waitForFinish (tp : Transport) (fuel : Nat) (s : Host)
    (initialDelay step errorState timeout : Int) : Option (Int × Host) :=
  let s1 := usleep s initialDelay
  let timeout1 := timeout - initialDelay
  let timeout2 := if timeout1 < 0 then 1 else timeout1
  waitLoop tp fuel s1 step errorState timeout2

/-- The two statements `memcpy(writeBuf + writeBufPos, data, size);
writeBufPos += size;` of `writeUart`, for bytes that fit into `writeBuf`. -/
def accumulate (s : Host) (data : List Byte) : Host :=
  { s with writeBuf := blit s.writeBuf s.writeBufPos data,
           writeBufPos := s.writeBufPos + data.length }

/-- Embeds `writeUart`: the bytes are appended to `writeBuf`; there is no
transfer, and the return value is `size`.  The C function has no capacity
check: when the bytes do not fit, its `memcpy` stores past the end of
`writeBuf`, which is undefined behaviour in C (the stores land in whatever lies
behind the array); the model gives no result for such a call (`none`). -/
def writeUart (s : Host) (data : List Byte) (_timeout : Int) : Option (Int × Host) :=
  if s.writeBufPos + data.length ≤ s.writeBuf.length then
    some ((data.length : Int), accumulate s data)
  else none

/-- The statistics update of `flushUart` after a transfer of `ret > 0` bytes. -/
def recordWriteStat (w : WriteStat) (ret : Int) : WriteStat :=
  { writeStatCnt := w.writeStatCnt + 1
    writeStatTotal := w.writeStatTotal + ret
    writeStatMin := if ret < w.writeStatMin then ret else w.writeStatMin
    writeStatMax := if ret > w.writeStatMax then ret else w.writeStatMax
    writeStat := w.writeStat.set ret.toNat (w.writeStat.getD ret.toNat 0 + 1) }

/-- The head of the body of the flush loop: the chunk of `blk` bytes at `pos`
is copied to `outBuf` and sent as a WriteUart transfer. -/
def sendChunk (tp : Transport) (s : Host) (pos size : Nat) : Int × Host :=
  let blk := if size > MAX_PACKET_LEN then MAX_PACKET_LEN else size
  let s1 := { s with outBuf := blit s.outBuf 0 ((s.writeBuf.drop pos).take blk) }
  sendControlTransfer tp s1 COMMAND_WRITE_UART 0 0 blk

/-- The block `if (ret > 0) { pos += blk; size -= blk; ... }` of the flush
loop, applied to the result `r` of `sendChunk`: the state, `pos` and `size`
afterwards. -/
def accountChunk (r : Int × Host) (pos size : Nat) : Host × Nat × Nat :=
  let blk := if size > MAX_PACKET_LEN then MAX_PACKET_LEN else size
  if 0 < r.1 then ({ r.2 with stat := recordWriteStat r.2.stat r.1 }, pos + blk, size - blk)
  else (r.2, pos, size)

/-- The `while (size > 0 && timeout > 0)` loop of `flushUart`. -/
def flushLoop (tp : Transport) : Nat → Host → Nat → Nat → Int → Int → Option (Int × Host)
  | 0, _, _, _, _, _ => none
  | fuel + 1, s, pos, size, timeout, result =>
    if 0 < size ∧ 0 < timeout then
      let r := sendChunk tp s pos size
      if r.1 < 0 then some (-1, r.2)
      else
        let a := accountChunk r pos size
        match waitForFinish tp fuel a.1 2000 1000 0 (timeout - 100) with
        | none => none
        | some (ret, s3) =>
          if ret < 0 then some (-1, s3)
          else if ret = 0 then some (0, s3)
          else flushLoop tp fuel s3 a.2.1 a.2.2 ret result
    else some (result, s)

/-- Embeds `flushUart`. -/
def flushUart (tp : Transport) (fuel : Nat) (s : Host) (timeout : Int) : Option (Int × Host) :=
  let timeout1 := int32 (timeout * 1000)
  let size := s.writeBufPos
  let s1 := { s with writeBufPos := 0, readDelay := 1 }
  flushLoop tp fuel s1 0 size timeout1 size

/-- The copy loop `while (resBufPos < resBufMax && dataPos < size)` of
`readUart`; the counter is a bound on its iterations (`resBufMax - resBufPos`
at the call). -/
def copyLoop : Nat → Host → List Byte → Nat → Int → Host × List Byte × Nat
  | 0, s, data, dataPos, _ => (s, data, dataPos)
  | n + 1, s, data, dataPos, size =>
    if s.resBufPos < s.resBufMax ∧ (dataPos : Int) < size then
      copyLoop n { s with resBufPos := s.resBufPos + 1 }
        (data.set dataPos (s.resBuf.getD s.resBufPos 0)) (dataPos + 1) size
    else (s, data, dataPos)

/-- The receive loop `while (total < duration && statNoBytes < (size - dataPos))`
of `readUart`; the counter is a bound on its iterations (`duration - total`
at the call, every iteration adding at least 400 to `total`), and the loop
falls through to `return 2` when its condition fails. -/
def readLoop (tp : Transport) :
    Nat → Host → List Byte → Nat → Int → Int → Int → Int → Int × Host × List Byte
  | 0, s, data, _, _, _, _, _ => (2, s, data)
  | n + 1, s, data, dataPos, size, duration, total, statNoBytes =>
    if total < duration ∧ statNoBytes < size - dataPos then
      let r := recvControlTransfer tp s COMMAND_READ_UART 0 0
      if r.1 < 0 then (0, r.2, data)
      else if 0 < r.1 then
        let s1 := { r.2 with resBufPos := 0, resBufMax := r.1.toNat }
        let c := copyLoop (s1.resBufMax - s1.resBufPos) s1 data dataPos size
        if (c.2.2 : Int) = size then (0, c.1, c.2.1)
        else readLoop tp n (usleep c.1 400) c.2.1 c.2.2 size duration (total + 400)
               (statNoBytes + r.1)
      else readLoop tp n (usleep r.2 1500) data dataPos size duration (total + 500) statNoBytes
    else (2, s, data)

/-- Embeds `readUart`: `data` is the caller's buffer, the result is the return
value, the new state and the buffer afterwards. -/
def readUart (tp : Transport) (s : Host) (data : List Byte) (size duration : Int) :
    Int × Host × List Byte :=
  let duration1 := int32 (duration * 1000)
  let s1 := if s.readDelay ≠ 0 then usleep { s with readDelay := 0 } 7000 else s
  let c := copyLoop (s1.resBufMax - s1.resBufPos) s1 data 0 size
  if (c.2.2 : Int) = size then (0, c.1, c.2.1)
  else readLoop tp (duration1.toNat) c.1 c.2.1 c.2.2 size duration1 0 0

/-- Embeds `loader_port_serial_write`; it has a result when `writeUart` has
one. -/
def loader_port_serial_write (s : Host) (data : List Byte) (timeout : Int) :
    Option (esp_loader_error_t × Host) :=
  match writeUart s data timeout with
  | none => none
  | some r =>
    if r.1 < 0 then some (ESP_LOADER_ERROR_FAIL, r.2)
    else if r.1 < (data.length : Int) then some (ESP_LOADER_ERROR_TIMEOUT, r.2)
    else some (ESP_LOADER_SUCCESS, r.2)

/-- Embeds `loader_port_write_flush`. -/
def loader_port_write_flush (tp : Transport) (fuel : Nat) (s : Host) :
    Option (esp_loader_error_t × Host) :=
  match flushUart tp fuel s 5000 with
  | none => none
  | some (written, s1) =>
    if written < 0 then some (ESP_LOADER_ERROR_FAIL, s1)
    else if written = 0 then some (ESP_LOADER_ERROR_TIMEOUT, s1)
    else some (ESP_LOADER_SUCCESS, s1)

/-- Embeds `loader_port_serial_read`: `RETURN_ON_ERROR` passes on every
non-zero result of `readUart`. -/
def loader_port_serial_read (tp : Transport) (s : Host) (data : List Byte)
    (size timeout : Int) : esp_loader_error_t × Host × List Byte :=
  let r := readUart tp s data size timeout
  if r.1 ≠ 0 then (errorOfInt r.1, r.2) else (ESP_LOADER_SUCCESS, r.2)

/-- Embeds `loader_port_enter_bootloader`. -/
def loader_port_enter_bootloader (tp : Transport) (s : Host) : Host :=
  let r1 := sendControlTransfer tp s COMMAND_SET_GPIO 0 0 0
  let s1 := loader_port_delay_ms r1.2 150
  let r2 := sendControlTransfer tp s1 COMMAND_SET_GPIO 6 0 0
  loader_port_delay_ms r2.2 4

/-- Embeds `loader_port_reset_target`. -/
def loader_port_reset_target (tp : Transport) (s : Host) : Host :=
  let r1 := sendControlTransfer tp s COMMAND_SET_GPIO 0 0 0
  let s1 := loader_port_delay_ms r1.2 100
  let r2 := sendControlTransfer tp s1 COMMAND_SET_GPIO 7 0 0
  r2.2

/-- Embeds `loader_port_change_baudrate`: the rate 74880 is encoded as 0, every
other rate as 1; a 40 ms delay follows when the transfer returns 0. -/
def loader_port_change_baudrate (tp : Transport) (s : Host) (baudrate : Nat) :
    esp_loader_error_t × Host :=
  let data := if baudrate = 74880 then 0 else 1
  let r := sendControlTransfer tp s COMMAND_SET_BAUDR data 0 0
  if r.1 ≠ 0 then (ESP_LOADER_SUCCESS, r.2)
  else (ESP_LOADER_SUCCESS, loader_port_delay_ms r.2 40)

/-! ## Mock transports used in the examples -/

/-- A device that accepts every payload in full and always reports idle. -/
def idleDevice : Transport where
  out := fun _ _ _ _ payload => payload.length
  inp := fun _ _ _ _ => (1, [0])

/-- A device that accepts every payload in full and always reports busy. -/
def busyDevice : Transport where
  out := fun _ _ _ _ payload => payload.length
  inp := fun _ _ _ _ => (1, [1])

/-- A transport whose device-to-host transfers all fail with `-1`. -/
def failingReads : Transport where
  out := fun _ _ _ _ payload => payload.length
  inp := fun _ _ _ _ => (-1, [])

/-- A device that answers the `i`-th transfer with the 32 bytes
`32 * i + 1, ..., 32 * i + 32`. -/
def fullReads : Transport where
  out := fun _ _ _ _ payload => payload.length
  inp := fun i _ _ _ => (32, (List.range 32).map (fun j => 32 * i + j + 1))

/-- The payloads of the WriteUart transfers of a trace, in order. -/
def writePayloads (tr : List Event) : List (List Byte) :=
  tr.filterMap (fun e =>
    match e with
    | Event.ctrlOut 2 _ _ payload _ => some payload
    | _ => none)

/-- The progress bytes reported by the GetProgress queries of a trace, in
order. -/
def progressReports (tr : List Event) : List Byte :=
  tr.filterMap (fun e =>
    match e with
    | Event.ctrlIn 0 _ _ _ buf => some (buf.getD 0 0)
    | _ => none)

/-- The control transfers of a trace (everything but the sleeps). -/
def transfers (tr : List Event) : List Event :=
  tr.filter (fun e =>
    match e with
    | Event.usleep _ => false
    | _ => true)

/-- The sleeps of a trace, in microseconds, in order. -/
def sleeps (tr : List Event) : List Int :=
  tr.filterMap (fun e =>
    match e with
    | Event.usleep us => some us
    | _ => none)

/-- The progress byte `resBuf[0]` that a GetProgress query sees when it is the
`i`-th control transfer of the run. -/
def progressByte (tp : Transport) (i : Nat) : Byte :=
  (((tp.inp i COMMAND_GET_PROGRESS 0 0).2 ++ List.replicate MAX_PACKET_LEN 0).take
    MAX_PACKET_LEN).getD 0 0

/-- The budget `waitForFinish` polls with: `timeout - initialDelay`, or 1 when
that is negative. -/
def waitBudget (initialDelay timeout : Int) : Int :=
  if timeout - initialDelay < 0 then 1 else timeout - initialDelay

/-- What a poll loop with budget `b` and step `step` that returned `r` after
the progress reports `qs` guarantees. -/
structure WaitPost (b step r : Int) (qs : List Byte) : Prop where
  nonneg : 0 ≤ r
  idle : 0 < r → ∃ busy : List Byte,
    qs = busy ++ [0] ∧ (∀ q ∈ busy, q ≠ 0) ∧ r = b - step * (busy.length : Int)
  expired : r = 0 → (∀ q ∈ qs, q ≠ 0) ∧ b - step * (qs.length : Int) ≤ 0
  inBudget : ∀ i : Nat, i < qs.length → 0 < b - step * (i : Int)
  noQuery : qs = [] ↔ b ≤ 0

/-- Every poll phase of the flush loop started in state `s` with `size` bytes
left at `pos` and budget `timeout` sees the device idle before its budget
runs out: after each chunk, `waitForFinish` returns a positive value. -/
inductive PollPhasesIdle (tp : Transport) : Host → Nat → Nat → Int → Prop
  | done (s : Host) (pos : Nat) (timeout : Int) : PollPhasesIdle tp s pos 0 timeout
  | chunk (s : Host) (pos size : Nat) (timeout : Int) (fuel : Nat) (ret : Int) (s3 : Host) :
      0 < size →
      waitForFinish tp fuel (accountChunk (sendChunk tp s pos size) pos size).1 2000 1000 0
        (timeout - 100) = some (ret, s3) →
      0 < ret →
      PollPhasesIdle tp s3 (accountChunk (sendChunk tp s pos size) pos size).2.1
        (accountChunk (sendChunk tp s pos size) pos size).2.2 ret →
      PollPhasesIdle tp s pos size timeout

/-- The list `ps` cuts `l` into chunks of 32 bytes, the last one holding the
rest. -/
structure Chunked (ps : List (List Byte)) (l : List Byte) : Prop where
  join : ps.flatten = l
  count : ps.length = (l.length + 31) / 32
  full : ∀ p ∈ ps.dropLast, p.length = 32
  last : ∀ p ∈ ps.getLast?, p.length = if l.length % 32 = 0 then 32 else l.length % 32

/-- Whether every host-to-device command of a trace is directly followed by a
non-zero sleep. -/
def delayAfterEachCommand : List Event → Bool
  | [] => true
  | Event.ctrlOut _ _ _ _ _ :: Event.usleep us :: rest =>
    decide (us ≠ 0) && delayAfterEachCommand rest
  | Event.ctrlOut _ _ _ _ _ :: _ => false
  | _ :: rest => delayAfterEachCommand rest

/-! ## Device firmware (`src/main.c`) -/

namespace Firmware

/-- One observable action of the firmware: a pin assignment, a blocking
delay, or a byte put on the UART. -/
inductive DevEvent
  | boot (v : Nat)
  | reset (v : Nat)
  | enable (v : Nat)
  | delay (ms : Nat)
  | tx (c : Byte)
  deriving DecidableEq, Repr

/-- The global state of the firmware: the two UART buffers, the mailbox
`command`, the lengths, the progress flag, the parameter byte `data`, the
endpoint-0 buffer, the pins, the UART baud rate, and a ghost log of pin, delay
and UART actions. -/
structure Device where
  uartBufW : List Byte
  uartBufR : List Byte
  command : Nat
  bufLenW : Nat
  bufLenR : Nat
  inProgress : Nat
  data : Nat
  Ep0Buffer : List Byte
  ESP_BOOT : Nat
  ESP_RESET : Nat
  ESP_ENABLE : Nat
  LED : Nat
  inBootloader : Bool
  baud : Nat
  log : List DevEvent
  deriving DecidableEq, Repr

/-- State of the firmware when `main` enters its loop, before any interrupt. -/
def Device.init : Device where
  uartBufW := [72, 105, 33, 13, 10] ++ List.replicate 27 0
  uartBufR := List.replicate 32 0
  command := 0
  bufLenW := 0
  bufLenR := 0
  inProgress := 0
  data := 0
  Ep0Buffer := List.replicate 32 0
  ESP_BOOT := 0
  ESP_RESET := 0
  ESP_ENABLE := 0
  LED := 0
  inBootloader := false
  baud := 115200
  log := []

/-- The loop `for (l = 0; l < bufLenR; l++) Ep0Buffer[l] = uartBufR[l];` of the
ReadUart case; the counter bounds its iterations (`bufLenR` at the call). -/
def copyRing : Nat → Device → Nat → Device × Nat
  | 0, d, l => (d, l)
  | n + 1, d, l =>
    if l < d.bufLenR then
      copyRing n { d with Ep0Buffer := d.Ep0Buffer.set l (d.uartBufR.getD l 0) } (l + 1)
    else (d, l)

/-- Embeds `jumpToBootloader`. -/
def jumpToBootloader (d : Device) : Device :=
  { d with LED := 1, inBootloader := true, log := d.log ++ [DevEvent.delay 100] }

/-- Embeds `handleVendorControlTransfer`: `UsbIntrSetupReq` is the request
code and `wValueL` the low byte of the setup packet's value field; the result
is the length of the response held in `Ep0Buffer`. -/
def handleVendorControlTransfer (d : Device) (UsbIntrSetupReq wValueL : Nat) : Nat × Device :=
  if UsbIntrSetupReq = COMMAND_GET_PROGRESS then
    (1, { d with Ep0Buffer := d.Ep0Buffer.set 0 d.inProgress })
  else if UsbIntrSetupReq = COMMAND_READ_UART then
    if 0 = d.bufLenR then (0, d)
    else
      let r := copyRing d.bufLenR d 0
      (r.2, { r.1 with bufLenR := 0 })
  else if UsbIntrSetupReq = COMMAND_WRITE_UART then (0, d)
  else if UsbIntrSetupReq = COMMAND_SET_GPIO then
    let d1 := { d with data := wValueL }
    let d2 := if d1.data = 0 then
        { d1 with ESP_RESET := 0, log := d1.log ++ [DevEvent.reset 0] } else d1
    (0, { d2 with command := COMMAND_SET_GPIO })
  else if UsbIntrSetupReq = COMMAND_SET_BAUDR then
    (0, { d with data := wValueL, command := COMMAND_SET_BAUDR })
  else if UsbIntrSetupReq = COMMAND_JUMP_TO_BOOTLOADER then (0, jumpToBootloader d)
  else (255, d)

/-- Embeds `UART0_ISR`: `sbuf` is the received character, or `none` when the
safety counter expires before `RI` is set. -/
def UART0_ISR (d : Device) (sbuf : Option Byte) : Device :=
  match sbuf with
  | none => d
  | some c =>
    let d1 := { d with uartBufR := d.uartBufR.set d.bufLenR c }
    let d2 := { d1 with bufLenR := (d1.bufLenR + 1) % 256 }
    if d2.bufLenR > 31 then { d2 with bufLenR := 0 } else d2

/-- The receive interrupt fires once for every byte of `bs`, in order, with
nothing else happening in between. -/
def deliver (d : Device) (bs : List Byte) : Device :=
  bs.foldl (fun d c => UART0_ISR d (some c)) d

/-- The bytes a host gets back from a ReadUart command: the first `len` bytes
of `Ep0Buffer`, `len` being the handler's return value. -/
def readUartResponse (d : Device) : List Byte :=
  let r := handleVendorControlTransfer d COMMAND_READ_UART 0
  r.2.Ep0Buffer.take r.1

/-- Embeds `handleVendorDataTransfer`: `USB_RX_LEN` is the number of bytes the
data stage left at the start of `Ep0Buffer`. -/
def handleVendorDataTransfer (d : Device) (UsbIntrSetupReq USB_RX_LEN : Nat) : Device :=
  if UsbIntrSetupReq = COMMAND_WRITE_UART then
    { d with
      inProgress := 1
      uartBufW := blit d.uartBufW 0 (d.Ep0Buffer.take USB_RX_LEN)
      bufLenW := USB_RX_LEN % 256
      command := COMMAND_WRITE_UART
      LED := 0 }
  else d

/-- Embeds `delayNonBlocking`: up to `n` delays of 1 ms, cut short as soon as
the mailbox `command` is non-zero. -/
def delayNonBlocking : Nat → Device → Nat × Device
  | 0, d => (1, d)
  | n + 1, d =>
    let d1 := { d with log := d.log ++ [DevEvent.delay 1] }
    if d1.command ≠ 0 then (0, d1) else delayNonBlocking n d1

/-- The loop `while (i < bufLenW) { c = uartBufW[i]; PUT_CHAR(c); i++; }` of
the firmware's `writeUart`; the counter bounds its iterations (`bufLenW` at the
call). -/
def putChars : Nat → Device → Nat → Device
  | 0, d, _ => d
  | n + 1, d, i =>
    if i < d.bufLenW then
      putChars n { d with log := d.log ++ [DevEvent.tx (d.uartBufW.getD i 0)] } (i + 1)
    else d

/-- Embeds the firmware's `writeUart`. -/
def writeUart (d : Device) : Device :=
  { putChars d.bufLenW d 0 with bufLenW := 0 }

/-- Embeds `setGpio`. -/
def setGpio (d : Device) : Device :=
  let d1 := { d with ESP_BOOT := d.data % 2, log := d.log ++ [DevEvent.boot (d.data % 2)] }
  let d2 := { d1 with data := d1.data / 2 }
  let d3 := { d2 with log := d2.log ++ [DevEvent.delay 2] }
  let d4 := { d3 with ESP_RESET := d3.data % 2, log := d3.log ++ [DevEvent.reset (d3.data % 2)] }
  let d5 := { d4 with data := d4.data / 2 }
  let d6 := { d5 with log := d5.log ++ [DevEvent.delay 2] }
  { d6 with ESP_ENABLE := d6.data % 2, log := d6.log ++ [DevEvent.enable (d6.data % 2)] }

/-- The command dispatch at the head of the body of the main loop. -/
def dispatch (d : Device) : Device :=
  if d.command = COMMAND_WRITE_UART then
    { writeUart { d with command := 0 } with inProgress := 0, LED := 0 }
  else if d.command = COMMAND_SET_GPIO then
    setGpio { d with command := 0 }
  else if d.command = COMMAND_SET_BAUDR then
    { d with command := 0, bufLenR := 0, baud := if d.data = 0 then 74880 else 115200 }
  else d

/-- The tail of the body of the main loop:
`if (delayNonBlocking(200)) { LED = !LED; }`. -/
def blink (d : Device) : Device :=
  let r := delayNonBlocking 200 d
  if r.1 ≠ 0 then { r.2 with LED := if r.2.LED = 0 then 1 else 0 } else r.2

/-- One iteration of the `while (1)` loop of `main`, with no interrupt firing
during it. -/
def mainLoopIteration (d : Device) : Device :=
  blink (dispatch d)

/-- A command that reaches the mailbox: the data stage of a WriteUart transfer
with its payload, a SetGpio setup packet with its pattern byte, or a
SetBaudRate setup packet with its selector byte. -/
inductive MailboxCommand
  | writeUart (payload : List Byte)
  | setGpio (pattern : Byte)
  | setBaudr (sel : Byte)
  deriving DecidableEq, Repr

/-- The opcode a mailbox command leaves in `command`. -/
def MailboxCommand.opcode : MailboxCommand → Nat
  | MailboxCommand.writeUart _ => COMMAND_WRITE_UART
  | MailboxCommand.setGpio _ => COMMAND_SET_GPIO
  | MailboxCommand.setBaudr _ => COMMAND_SET_BAUDR

/-- The USB interrupt handlers run for one command: the setup handler, and
for WriteUart the data stage, which stores the payload in `Ep0Buffer` and
runs the data handler. -/
def usbInterrupt (d : Device) : MailboxCommand → Device
  | MailboxCommand.writeUart payload =>
    let d1 := (handleVendorControlTransfer d COMMAND_WRITE_UART 0).2
    handleVendorDataTransfer { d1 with Ep0Buffer := blit d1.Ep0Buffer 0 payload }
      COMMAND_WRITE_UART payload.length
  | MailboxCommand.setGpio pattern => (handleVendorControlTransfer d COMMAND_SET_GPIO pattern).2
  | MailboxCommand.setBaudr sel => (handleVendorControlTransfer d COMMAND_SET_BAUDR sel).2

/-- The bytes put on the UART, in order, according to a log. -/
def txBytes (log : List DevEvent) : List Byte :=
  log.filterMap (fun e =>
    match e with
    | DevEvent.tx c => some c
    | _ => none)

/-- The pin assignments of a log, in order (delays and UART bytes removed). -/
def pinEvents (log : List DevEvent) : List DevEvent :=
  log.filter (fun e =>
    match e with
    | DevEvent.boot _ => true
    | DevEvent.reset _ => true
    | DevEvent.enable _ => true
    | _ => false)

/-- The three strapping pins (boot, reset, enable). -/
def pins (d : Device) : Nat × Nat × Nat :=
  (d.ESP_BOOT, d.ESP_RESET, d.ESP_ENABLE)

/-- The bytes the main-loop action of a command puts on the UART. -/
def actionTx : MailboxCommand → List Byte
  | MailboxCommand.writeUart payload => payload
  | _ => []

/-- The pin assignments the main-loop action of a command makes, in order. -/
def actionPinEvents : MailboxCommand → List DevEvent
  | MailboxCommand.setGpio pattern =>
    [DevEvent.boot (pattern % 2), DevEvent.reset (pattern / 2 % 2),
      DevEvent.enable (pattern / 4 % 2)]
  | _ => []

/-- The pins after the main-loop action of a command, from the pins before. -/
def actionPins (c : MailboxCommand) (old : Nat × Nat × Nat) : Nat × Nat × Nat :=
  match c with
  | MailboxCommand.setGpio pattern => (pattern % 2, pattern / 2 % 2, pattern / 4 % 2)
  | _ => old

/-- The baud rate after the main-loop action of a command, from the rate
before. -/
def actionBaud (c : MailboxCommand) (old : Nat) : Nat :=
  match c with
  | MailboxCommand.setBaudr sel => if sel = 0 then 74880 else 115200
  | _ => old

/-- The pin assignment the setup handler of a command makes by itself: SetGpio
with pattern 0 pulls reset low at once. -/
def handlerPinEvents : MailboxCommand → List DevEvent
  | MailboxCommand.setGpio pattern => if pattern = 0 then [DevEvent.reset 0] else []
  | _ => []

end Firmware

/-! ## Adequacy of the loop counters of `readUart` -/

/-- The counter of `copyLoop` never cuts the loop short: once it is at least
`resBufMax - resBufPos`, one more unit changes nothing. -/
theorem copyLoop_counter_adequate : ∀ (n : Nat) (s : Host) (data : List Byte) (p : Nat)
    (size : Int), s.resBufMax - s.resBufPos ≤ n →
    copyLoop (n + 1) s data p size = copyLoop n s data p size := by
  intro n
  induction n with
  | zero =>
    intro s data p size h
    have hc : ¬ (s.resBufPos < s.resBufMax ∧ (p : Int) < size) := fun hc => by omega
    simp [copyLoop, hc]
  | succ n ih =>
    intro s data p size h
    conv_lhs => rw [copyLoop]
    conv_rhs => rw [copyLoop]
    by_cases hc : s.resBufPos < s.resBufMax ∧ (p : Int) < size
    · rw [if_pos hc, if_pos hc]
      exact ih _ _ _ _ (by simp only; omega)
    · rw [if_neg hc, if_neg hc]

/-- The counter of `readLoop` never cuts the loop short: once it is at least
`duration - total`, one more unit changes nothing. -/
theorem readLoop_counter_adequate (tp : Transport) : ∀ (n : Nat) (s : Host)
    (data : List Byte) (p : Nat) (size duration total stat : Int),
    (duration - total).toNat ≤ n →
    readLoop tp (n + 1) s data p size duration total stat
      = readLoop tp n s data p size duration total stat := by
  intro n
  induction n with
  | zero =>
    intro s data p size duration total stat h
    have hc : ¬ (total < duration ∧ stat < size - p) := fun hc => by omega
    simp [readLoop, hc]
  | succ n ih =>
    intro s data p size duration total stat h
    conv_lhs => rw [readLoop]
    conv_rhs => rw [readLoop]
    by_cases hc : total < duration ∧ stat < size - p
    · rw [if_pos hc, if_pos hc]
      simp only
      split
      · rfl
      · split
        · split
          · rfl
          · exact ih _ _ _ _ _ _ _ (by omega)
        · exact ih _ _ _ _ _ _ _ (by omega)
    · rw [if_neg hc, if_neg hc]

/-! ## Empty flush (C4) -/

/-- C4, as stated, fails: flushing the empty buffer of a freshly initialised
host makes `loader_port_write_flush` report a timeout, not success. -/
theorem flush_empty_reports_timeout :
    (loader_port_write_flush idleDevice 1 Host.init).map Prod.fst
        = some ESP_LOADER_ERROR_TIMEOUT ∧
      (loader_port_write_flush idleDevice 1 Host.init).map Prod.fst
        ≠ some ESP_LOADER_SUCCESS := by
  constructor
  · rfl
  · decide

/-- C4, amended: with an empty outbound buffer `flushUart` makes no control
transfer and no sleep, returns 0 (only `writeBufPos` and `readDelay` are
assigned), and `loader_port_write_flush` turns that 0 into
`ESP_LOADER_ERROR_TIMEOUT`. -/
theorem flush_empty_no_transfer (tp : Transport) (fuel : Nat) (s : Host) (timeout : Int)
    (hempty : s.writeBufPos = 0) :
    flushUart tp (fuel + 1) s timeout = some (0, { s with writeBufPos := 0, readDelay := 1 }) ∧
      loader_port_write_flush tp (fuel + 1) s
        = some (ESP_LOADER_ERROR_TIMEOUT, { s with writeBufPos := 0, readDelay := 1 }) := by
  have h : ∀ t : Int, flushUart tp (fuel + 1) s t
      = some (0, { s with writeBufPos := 0, readDelay := 1 }) := by
    intro t
    simp [flushUart, flushLoop, hempty]
  exact ⟨h timeout, by simp [loader_port_write_flush, h]⟩

/-- Instance of `flush_empty_no_transfer` at the freshly initialised host. -/
theorem flush_empty_no_transfer_witness :
    Host.init.writeBufPos = 0 ∧
      (flushUart idleDevice 1 Host.init 5000
          = some (0, { Host.init with writeBufPos := 0, readDelay := 1 }) ∧
        loader_port_write_flush idleDevice 1 Host.init
          = some (ESP_LOADER_ERROR_TIMEOUT, { Host.init with writeBufPos := 0, readDelay := 1 })) :=
  ⟨rfl, flush_empty_no_transfer idleDevice 0 Host.init 5000 rfl⟩

/-! ## Boot and reset sequences (C9) -/

/-- C9, as stated, fails: the trace of `loader_port_reset_target` ends with
the SetGpio command of pattern 7; no delay follows it. -/
theorem reset_target_trace_example :
    (loader_port_reset_target idleDevice Host.init).trace
        = [Event.ctrlOut 3 0 0 [] 0, Event.usleep 100000, Event.ctrlOut 3 7 0 [] 0] ∧
      delayAfterEachCommand (loader_port_reset_target idleDevice Host.init).trace = false := by
  constructor <;> rfl

/-- C9, amended: for every transport, `loader_port_enter_bootloader` appends
exactly SetGpio 0, a 150 ms delay, SetGpio 6, a 4 ms delay to the trace, and
`loader_port_reset_target` appends exactly SetGpio 0, a 100 ms delay,
SetGpio 7 (param2 = 0, empty payload, nothing after the last command); so in
the enter-bootloader trace every command is followed by a non-zero delay. -/
theorem gpio_sequences_trace (tp : Transport) (s : Host) :
    (loader_port_enter_bootloader tp s).trace
        = s.trace ++ [Event.ctrlOut COMMAND_SET_GPIO 0 0 [] (tp.out s.xfers COMMAND_SET_GPIO 0 0 []),
            Event.usleep 150000,
            Event.ctrlOut COMMAND_SET_GPIO 6 0 [] (tp.out (s.xfers + 1) COMMAND_SET_GPIO 6 0 []),
            Event.usleep 4000] ∧
      (loader_port_reset_target tp s).trace
        = s.trace ++ [Event.ctrlOut COMMAND_SET_GPIO 0 0 [] (tp.out s.xfers COMMAND_SET_GPIO 0 0 []),
            Event.usleep 100000,
            Event.ctrlOut COMMAND_SET_GPIO 7 0 [] (tp.out (s.xfers + 1) COMMAND_SET_GPIO 7 0 [])] ∧
      delayAfterEachCommand
        ((loader_port_enter_bootloader tp s).trace.drop s.trace.length) = true := by
  refine ⟨?_, ?_, ?_⟩ <;>
    simp [loader_port_enter_bootloader, loader_port_reset_target, sendControlTransfer,
      loader_port_delay_ms, usleep, delayAfterEachCommand]

/-! ## Reads that need the device (C2, C6) -/

/-- C2 fails on the code: a read of 64 bytes from an exhausted staging buffer,
served by a device that has 32 bytes ready at every ReadUart, returns the
timeout code 2 after a single ReadUart transfer, with only the first 32 bytes
of the caller's buffer filled. -/
theorem read_two_chunks_times_out :
    (readUart fullReads Host.init (List.replicate 64 0) 64 1000).1 = 2 ∧
      (readUart fullReads Host.init (List.replicate 64 0) 64 1000).2.2
        = (List.range 32).map (fun j => j + 1) ++ List.replicate 32 0 ∧
      (transfers (readUart fullReads Host.init (List.replicate 64 0) 64 1000).2.1.trace).length
        = 1 := by
  refine ⟨?_, ?_, ?_⟩ <;> decide

/-- C6 fails on the code: when the first ReadUart transfer returns `-1`,
`readUart` returns 0 and `loader_port_serial_read` reports success although
the one requested byte was never stored in the caller's buffer. -/
theorem read_error_reported_as_success :
    (readUart failingReads Host.init [238] 1 100).1 = 0 ∧
      (loader_port_serial_read failingReads Host.init [238] 1 100).1 = ESP_LOADER_SUCCESS ∧
      (readUart failingReads Host.init [238] 1 100).2.2 = [238] ∧
      (readUart failingReads Host.init [238] 1 100).2.1.resBufMax = 0 := by
  refine ⟨?_, ?_, ?_, ?_⟩ <;> decide

theorem set_take_succ (data : List Byte) (p : Nat) (x : Byte) (hp : p < data.length) :
    (data.set p x).take (p + 1) = data.take p ++ [x] := by
  rw [List.take_succ, List.set_take, List.set_eq_of_length_le (by simp)]
  simp [hp]


theorem copyLoop_enough (k : Nat) : ∀ (n : Nat) (s : Host) (data : List Byte) (p m : Nat),
    k ≤ n → p + k = m → s.resBufPos + k ≤ s.resBufMax → s.resBufMax ≤ s.resBuf.length →
    m ≤ data.length →
    copyLoop n s data p (m : Int)
      = ({ s with resBufPos := s.resBufPos + k },
         data.take p ++ (s.resBuf.drop s.resBufPos).take k ++ data.drop m, m) := by
  induction k with
  | zero =>
    intro n s data p m _ hpm _ _ _
    have hpm2 : p = m := by omega
    subst hpm2
    cases n <;> simp [copyLoop]
  | succ k ih =>
    intro n s data p m hn hpm hpos hmax hm
    obtain ⟨n, rfl⟩ : ∃ n1, n = n1 + 1 := ⟨n - 1, by omega⟩
    have hc : s.resBufPos < s.resBufMax ∧ (p : Int) < (m : Int) := ⟨by omega, by omega⟩
    have hlt : s.resBufPos < s.resBuf.length := by omega
    rw [copyLoop, if_pos hc]
    rw [ih n _ _ (p + 1) m (by omega) (by omega) (by simpa using by omega) (by simpa using hmax)
      (by simpa using hm)]
    simp only [Prod.mk.injEq, and_true]
    refine ⟨by simp [Nat.add_assoc, Nat.add_comm 1 k], ?_⟩
    rw [set_take_succ _ _ _ (by omega), List.drop_set_of_lt _ _ (by omega)]
    rw [List.drop_eq_getElem_cons hlt, List.getD_eq_getElem _ _ hlt]
    simp only [List.take_succ_cons, List.cons_append, List.append_assoc, List.singleton_append,
      Nat.add_eq, List.nil_append]

/-- C7: when the staging buffer holds at least `size` unread bytes, `readUart`
makes no control transfer (at most the 7 ms read-delay sleep is added to the
trace), returns 0 (so `loader_port_serial_read` reports success), stores
`resBuf[resBufPos .. resBufPos + size)` in order at the start of the caller's
buffer, advances `resBufPos` by exactly `size` and leaves `resBufMax` and
`resBuf` unchanged. -/
theorem read_from_staging (tp : Transport) (s : Host) (data : List Byte) (size : Nat)
    (duration : Int) (hstaged : s.resBufPos + size ≤ s.resBufMax)
    (hvalid : s.resBufMax ≤ s.resBuf.length) (hroom : size ≤ data.length) :
    (readUart tp s data size duration).1 = 0 ∧
      (loader_port_serial_read tp s data size duration).1 = ESP_LOADER_SUCCESS ∧
      (readUart tp s data size duration).2.1.xfers = s.xfers ∧
      (readUart tp s data size duration).2.1.trace
        = s.trace ++ (if s.readDelay ≠ 0 then [Event.usleep 7000] else []) ∧
      (readUart tp s data size duration).2.2
        = (s.resBuf.drop s.resBufPos).take size ++ data.drop size ∧
      (readUart tp s data size duration).2.1.resBufPos = s.resBufPos + size ∧
      (readUart tp s data size duration).2.1.resBufMax = s.resBufMax ∧
      (readUart tp s data size duration).2.1.resBuf = s.resBuf := by
  have key : readUart tp s data size duration
      = (0, { (if s.readDelay ≠ 0 then usleep { s with readDelay := 0 } 7000 else s) with
                resBufPos := s.resBufPos + size },
          (s.resBuf.drop s.resBufPos).take size ++ data.drop size) := by
    unfold readUart
    by_cases hd : s.readDelay = 0
    · simp only [hd, ne_eq, not_true_eq_false, if_false]
      rw [copyLoop_enough size _ s data 0 size (by omega) (by omega) hstaged hvalid hroom]
      simp [hd]
    · simp only [hd, ne_eq, not_false_eq_true, if_true]
      rw [copyLoop_enough size _ _ data 0 size (by simp [usleep]; omega) (by omega)
        (by simpa [usleep] using hstaged) (by simpa [usleep] using hvalid) hroom]
      simp [usleep]
  have key2 : (loader_port_serial_read tp s data size duration).1 = ESP_LOADER_SUCCESS := by
    simp [loader_port_serial_read, key]
  rw [key]
  refine ⟨rfl, key2, ?_, ?_, rfl, rfl, ?_, ?_⟩ <;>
    by_cases hd : s.readDelay = 0 <;> simp [hd, usleep]

/-- Instance of `read_from_staging`: three staged bytes, two of them read. -/
theorem read_from_staging_witness :
    (readUart failingReads
        { Host.init with resBuf := [7, 8, 9] ++ List.replicate 29 0, resBufMax := 3 }
        [0, 0] (2 : Nat) 100).1 = 0 ∧
      (readUart failingReads
        { Host.init with resBuf := [7, 8, 9] ++ List.replicate 29 0, resBufMax := 3 }
        [0, 0] (2 : Nat) 100).2.2 = [7, 8] :=
  have h := read_from_staging failingReads
    { Host.init with resBuf := [7, 8, 9] ++ List.replicate 29 0, resBufMax := 3 }
    [0, 0] 2 100 (by decide) (by decide) (by decide)
  ⟨h.1, h.2.2.2.2.1⟩

/-! ## Device receive buffer (C3) -/

open Firmware

theorem deliver_snoc (d : Device) (bs : List Byte) (c : Byte) :
    deliver d (bs ++ [c]) = UART0_ISR (deliver d bs) (some c) := by
  simp [deliver, List.foldl_append]

/-- State of the receive buffer after `bs` arrived in an empty buffer: the
length counter is `bs.length % 32` and the buffer starts with the bytes
received since the counter last wrapped. -/
theorem deliver_ring_state (d : Device) (hempty : d.bufLenR = 0)
    (hR : d.uartBufR.length = 32) (bs : List Byte) :
    (deliver d bs).bufLenR = bs.length % 32 ∧
      (deliver d bs).uartBufR.length = 32 ∧
      (deliver d bs).uartBufR.take (bs.length % 32)
        = bs.drop (bs.length - bs.length % 32) ∧
      (deliver d bs).Ep0Buffer = d.Ep0Buffer := by
  induction bs using List.reverseRecOn with
  | nil => simp [deliver, hempty, hR]
  | append_singleton bs c ih =>
    obtain ⟨h1, h2, h3, h4⟩ := ih
    rw [deliver_snoc]
    have hlt : bs.length % 32 < 32 := Nat.mod_lt _ (by decide)
    by_cases hk : bs.length % 32 = 31
    · have hmod : (bs.length + 1) % 32 = 0 := by omega
      simp [UART0_ISR, h1, hk, h2, h4, hmod]
    · have hmod : (bs.length + 1) % 32 = bs.length % 32 + 1 := by omega
      have hsm : (bs.length % 32 + 1) % 256 = bs.length % 32 + 1 := by omega
      have hle : ¬ (bs.length % 32 + 1 > 31) := by omega
      have hsub : bs.length + 1 - (bs.length % 32 + 1) = bs.length - bs.length % 32 := by omega
      have hdl : bs.length - bs.length % 32 ≤ bs.length := Nat.sub_le _ _
      simp only [UART0_ISR, h1, hsm, hle, if_false, List.length_set, h2, h4,
        List.length_append, List.length_singleton, hmod, hsub, true_and, and_true]
      rw [set_take_succ _ _ _ (by omega), h3, List.drop_append_of_le_length hdl]

theorem copyRing_spec (k : Nat) : ∀ (n : Nat) (d : Device) (l : Nat),
    k ≤ n → l + k = d.bufLenR → d.bufLenR ≤ d.uartBufR.length →
    d.bufLenR ≤ d.Ep0Buffer.length →
    copyRing n d l
      = ({ d with Ep0Buffer := d.Ep0Buffer.take l ++ (d.uartBufR.drop l).take k
                                ++ d.Ep0Buffer.drop (l + k) }, l + k) := by
  induction k with
  | zero =>
    intro n d l _ hl _ _
    have hnl : ¬ (l < d.bufLenR) := by omega
    cases n <;> simp [copyRing, hnl]
  | succ k ih =>
    intro n d l hn hl hR hE
    obtain ⟨n, rfl⟩ : ∃ n1, n = n1 + 1 := ⟨n - 1, by omega⟩
    have hc : l < d.bufLenR := by omega
    have hlt : l < d.uartBufR.length := by omega
    rw [copyRing, if_pos hc]
    rw [ih n _ (l + 1) (by omega) (by simpa using by omega) (by simpa using hR)
      (by simpa using hE)]
    simp only [Prod.mk.injEq]
    refine ⟨?_, by omega⟩
    congr 1
    rw [set_take_succ _ _ _ (by omega), List.drop_set_of_lt _ _ (by omega)]
    rw [List.drop_eq_getElem_cons hlt, List.getD_eq_getElem _ _ hlt]
    simp only [List.take_succ_cons, List.cons_append, List.append_assoc, List.singleton_append,
      Nat.add_eq, List.nil_append]
    rw [show l + 1 + k = l + (k + 1) by omega]

theorem handle_read_uart (d : Device) :
    handleVendorControlTransfer d COMMAND_READ_UART 0
      = if 0 = d.bufLenR then (0, d)
        else ((copyRing d.bufLenR d 0).2, { (copyRing d.bufLenR d 0).1 with bufLenR := 0 }) := by
  simp [handleVendorControlTransfer, COMMAND_READ_UART, COMMAND_GET_PROGRESS]

/-- The ReadUart command after `bs` arrived in an empty receive buffer: it
returns `bs.length % 32` bytes, the last ones received, and resets the length
counter. -/
theorem readUart_after_deliver (d : Device) (hempty : d.bufLenR = 0)
    (hR : d.uartBufR.length = 32) (hE : 32 ≤ d.Ep0Buffer.length) (bs : List Byte) :
    (handleVendorControlTransfer (deliver d bs) COMMAND_READ_UART 0).1 = bs.length % 32 ∧
      readUartResponse (deliver d bs) = bs.drop (bs.length - bs.length % 32) ∧
      (handleVendorControlTransfer (deliver d bs) COMMAND_READ_UART 0).2.bufLenR = 0 := by
  obtain ⟨h1, h2, h3, h4⟩ := deliver_ring_state d hempty hR bs
  have hlt : bs.length % 32 < 32 := Nat.mod_lt _ (by decide)
  by_cases hz : bs.length % 32 = 0
  · simp [readUartResponse, handle_read_uart, h1, hz]
  · have hz2 : ¬ (0 = (deliver d bs).bufLenR) := fun h => hz (by omega)
    have hcr := copyRing_spec (deliver d bs).bufLenR (deliver d bs).bufLenR (deliver d bs) 0
      le_rfl (by omega) (by omega) (by rw [h4]; omega)
    simp only [readUartResponse, handle_read_uart, hz2, if_false, hcr]
    simp only [h1, List.take_zero, List.nil_append, List.drop_zero, Nat.zero_add, h3, and_true,
      true_and]
    rw [List.take_append_of_le_length (by simp; omega)]
    rw [List.take_of_length_le (by simp; omega)]

set_option maxRecDepth 1024 in
/-- C3, as stated, fails: after 33 bytes `0, ..., 32` arrive in the empty
receive buffer, ReadUart returns the single byte 32, not the most recent 32
bytes `1, ..., 32`. -/
theorem ring_overflow_example :
    readUartResponse (deliver Device.init (List.range 33)) = [32] ∧
      readUartResponse (deliver Device.init (List.range 33))
        ≠ (List.range 33).drop (33 - 32) := by
  have h : readUartResponse (deliver Device.init (List.range 33)) = [32] := by rfl
  rw [h]
  exact ⟨rfl, by decide⟩

/-- C3, amended: after `n > 32` bytes arrive in an empty receive buffer with no
host read in between, the following ReadUart command returns exactly the most
recent `n mod 32` bytes, in order (nothing when 32 divides `n`), that is, only
the last `n mod 32` of the most recent 32 bytes: the bytes received before the
length counter last wrapped to zero are lost. -/
theorem ring_overflow_keeps_tail (d : Device) (bs : List Byte) (hn : 32 < bs.length)
    (hempty : d.bufLenR = 0) (hR : d.uartBufR.length = 32) (hE : 32 ≤ d.Ep0Buffer.length) :
    (handleVendorControlTransfer (deliver d bs) COMMAND_READ_UART 0).1 = bs.length % 32 ∧
      readUartResponse (deliver d bs) = bs.drop (bs.length - bs.length % 32) ∧
      readUartResponse (deliver d bs)
        = (bs.drop (bs.length - 32)).drop (32 - bs.length % 32) ∧
      (readUartResponse (deliver d bs)).length = bs.length % 32 ∧
      (readUartResponse (deliver d bs)).length < 32 := by
  obtain ⟨h1, h2, _⟩ := readUart_after_deliver d hempty hR hE bs
  have hlt : bs.length % 32 < 32 := Nat.mod_lt _ (by decide)
  have hle : bs.length % 32 ≤ bs.length := Nat.mod_le _ _
  refine ⟨h1, h2, ?_, ?_, ?_⟩
  · rw [h2, List.drop_drop]
    congr 1
    omega
  · rw [h2, List.length_drop]; omega
  · rw [h2, List.length_drop]; omega

/-- Instance of `ring_overflow_keeps_tail`: 33 bytes into the initial device. -/
theorem ring_overflow_keeps_tail_witness :
    32 < (List.range 33).length ∧
      readUartResponse (deliver Device.init (List.range 33))
        = (List.range 33).drop ((List.range 33).length - (List.range 33).length % 32) :=
  ⟨by decide,
    (ring_overflow_keeps_tail Device.init (List.range 33) (by decide) rfl (by decide)
      (by decide)).2.1⟩

/-! ## Polling (C10) -/

theorem usbIoFinished_fst (tp : Transport) (s : Host) :
    (usbIoFinished tp s).1 = (progressByte tp s.xfers : Int) := rfl

theorem usbIoFinished_trace (tp : Transport) (s : Host) :
    ∃ ret buf, (usbIoFinished tp s).2.trace
        = s.trace ++ [Event.ctrlIn COMMAND_GET_PROGRESS 0 0 ret buf] ∧
      buf.getD 0 0 = progressByte tp s.xfers :=
  ⟨_, _, rfl, rfl⟩

theorem progressReports_append (a b : List Event) :
    progressReports (a ++ b) = progressReports a ++ progressReports b := by
  simp [progressReports]

theorem writePayloads_append (a b : List Event) :
    writePayloads (a ++ b) = writePayloads a ++ writePayloads b := by
  simp [writePayloads]

theorem sleeps_append (a b : List Event) : sleeps (a ++ b) = sleeps a ++ sleeps b := by
  simp [sleeps]

theorem transfers_append (a b : List Event) :
    transfers (a ++ b) = transfers a ++ transfers b := by
  simp [transfers]

/-- More fuel does not change the result of the poll loop. -/
theorem waitLoop_mono (tp : Transport) (step e : Int) :
    ∀ (fuel fuel2 : Nat) (s : Host) (t : Int) (x : Int × Host),
      fuel ≤ fuel2 → waitLoop tp fuel s step e t = some x →
      waitLoop tp fuel2 s step e t = some x := by
  intro fuel
  induction fuel with
  | zero => intro fuel2 s t x _ h; simp [waitLoop] at h
  | succ fuel ih =>
    intro fuel2 s t x hle h
    obtain ⟨f2, rfl⟩ : ∃ f2, fuel2 = f2 + 1 := ⟨fuel2 - 1, by omega⟩
    rw [waitLoop] at h ⊢
    by_cases ht : 0 < t
    · simp only [ht, if_true] at h ⊢
      by_cases h0 : (usbIoFinished tp s).1 = 0
      · simp only [h0, if_true] at h ⊢
        exact h
      · simp only [h0, if_false] at h ⊢
        by_cases he : e ≠ 0 ∧ (usbIoFinished tp s).1 = e
        · simp only [he, and_self, ne_eq, if_true] at h ⊢
          simpa [he] using h
        · simp only [he, if_false] at h ⊢
          exact ih f2 _ _ x (by omega) h
    · simp only [ht, if_false] at h ⊢
      exact h

/-- The poll loop with a positive step and no error state: it returns once
its fuel exceeds the budget, and the reports of the queries it made determine
the result. -/
theorem waitLoop_spec (tp : Transport) (step : Int) (hstep : 0 < step) :
    ∀ (fuel : Nat) (s : Host) (t : Int), t.toNat < fuel →
      ∃ (r : Int) (s2 : Host) (new : List Event),
        waitLoop tp fuel s step 0 t = some (r, s2) ∧
        s2.trace = s.trace ++ new ∧
        WaitPost t step r (progressReports new) ∧
        (∀ q ∈ progressReports new, ∃ i, q = progressByte tp i) ∧
        writePayloads new = [] ∧
        sleeps new = List.replicate ((progressReports new).length - 1) step ∧
        (transfers new).length = (progressReports new).length ∧
        s2.xfers = s.xfers + (progressReports new).length ∧
        s2.writeBuf = s.writeBuf ∧ s2.outBuf = s.outBuf ∧ s2.stat = s.stat ∧
        s2.writeBufPos = s.writeBufPos ∧ s2.readDelay = s.readDelay := by
  intro fuel
  induction fuel with
  | zero => intro s t h; omega
  | succ fuel ih =>
    intro s t hfuel
    rw [waitLoop]
    by_cases ht : 0 < t
    · simp only [ht, if_true]
      obtain ⟨ret, buf, htr, hbuf⟩ := usbIoFinished_trace tp s
      have hrep : progressReports [Event.ctrlIn COMMAND_GET_PROGRESS 0 0 ret buf]
          = [progressByte tp s.xfers] := by
        rw [← hbuf]; rfl
      by_cases h0 : (usbIoFinished tp s).1 = 0
      · simp only [h0, if_true]
        have hq : progressByte tp s.xfers = 0 := by
          rw [usbIoFinished_fst] at h0
          exact_mod_cast h0
        refine ⟨t, _, [Event.ctrlIn COMMAND_GET_PROGRESS 0 0 ret buf], rfl, htr, ?_, ?_, ?_, ?_,
          ?_, ?_, rfl, rfl, rfl, rfl, rfl⟩
        · rw [hrep, hq]
          refine ⟨by omega, fun _ => ⟨[], by simp⟩, fun h => by omega, ?_, ?_⟩
          · intro i hi
            simp only [List.length_singleton, Nat.lt_one_iff] at hi
            subst hi
            simpa using ht
          · simp; omega
        · intro q hq2
          rw [hrep] at hq2
          exact ⟨s.xfers, by simpa using hq2⟩
        · simp [writePayloads, COMMAND_GET_PROGRESS]
        · rw [hrep]; simp [sleeps]
        · rw [hrep]; simp [transfers]
        · rw [hrep]; simp [usbIoFinished, recvControlTransfer]
      · simp only [h0, if_false, ne_eq, not_true_eq_false, false_and]
        have hq : progressByte tp s.xfers ≠ 0 := by
          intro hz
          apply h0
          rw [usbIoFinished_fst, hz]
          rfl
        have hfuel2 : (t - step).toNat < fuel := by omega
        obtain ⟨r, s2, new, hrun, htr2, hpost, horacle, hwp, hsl, htc, hx, hwb, hob, hst, hwpos,
          hrd⟩ := ih (if 0 < t - step then usleep (usbIoFinished tp s).2 step
            else (usbIoFinished tp s).2) (t - step) hfuel2
        have hframe : ∀ s1 : Host, (if 0 < t - step then usleep s1 step else s1).xfers = s1.xfers ∧
            (if 0 < t - step then usleep s1 step else s1).writeBuf = s1.writeBuf ∧
            (if 0 < t - step then usleep s1 step else s1).outBuf = s1.outBuf ∧
            (if 0 < t - step then usleep s1 step else s1).stat = s1.stat ∧
            (if 0 < t - step then usleep s1 step else s1).writeBufPos = s1.writeBufPos ∧
            (if 0 < t - step then usleep s1 step else s1).readDelay = s1.readDelay ∧
            (if 0 < t - step then usleep s1 step else s1).trace
              = s1.trace ++ (if 0 < t - step then [Event.usleep step] else []) := by
          intro s1
          by_cases hp : 0 < t - step <;> simp [hp, usleep]
        obtain ⟨f1, f2, f3, f4, f5, f6, f7⟩ := hframe (usbIoFinished tp s).2
        have hmidP : progressReports (if 0 < t - step then [Event.usleep step] else []) = [] := by
          by_cases hp : 0 < t - step <;> simp [hp, progressReports]
        have hmidW : writePayloads (if 0 < t - step then [Event.usleep step] else []) = [] := by
          by_cases hp : 0 < t - step <;> simp [hp, writePayloads]
        have hmidT : transfers (if 0 < t - step then [Event.usleep step] else []) = [] := by
          by_cases hp : 0 < t - step <;> simp [hp, transfers]
        have hmidS : sleeps (if 0 < t - step then [Event.usleep step] else [])
            = if 0 < t - step then [step] else [] := by
          by_cases hp : 0 < t - step <;> simp [hp, sleeps]
        have hheadW : writePayloads [Event.ctrlIn COMMAND_GET_PROGRESS 0 0 ret buf] = [] := rfl
        have hheadS : sleeps [Event.ctrlIn COMMAND_GET_PROGRESS 0 0 ret buf] = [] := rfl
        have hheadT : transfers [Event.ctrlIn COMMAND_GET_PROGRESS 0 0 ret buf]
            = [Event.ctrlIn COMMAND_GET_PROGRESS 0 0 ret buf] := rfl
        have hsplit : progressReports ([Event.ctrlIn COMMAND_GET_PROGRESS 0 0 ret buf]
            ++ (if 0 < t - step then [Event.usleep step] else []) ++ new)
            = progressByte tp s.xfers :: progressReports new := by
          rw [progressReports_append, progressReports_append, hrep, hmidP]
          rfl
        have hx1 : (usbIoFinished tp s).2.xfers = s.xfers + 1 := rfl
        refine ⟨r, s2, [Event.ctrlIn COMMAND_GET_PROGRESS 0 0 ret buf]
          ++ (if 0 < t - step then [Event.usleep step] else []) ++ new, hrun, ?_, ?_, ?_, ?_, ?_,
          ?_, ?_, ?_, ?_, ?_, ?_, ?_⟩
        · rw [htr2, f7, htr]; simp
        · rw [hsplit]
          refine ⟨hpost.nonneg, ?_, ?_, ?_, ?_⟩
          · intro hr
            obtain ⟨busy, hb1, hb2, hb3⟩ := hpost.idle hr
            refine ⟨progressByte tp s.xfers :: busy, by simp [hb1], ?_, ?_⟩
            · intro q hq2
              rcases List.mem_cons.mp hq2 with h | h
              · rw [h]; exact hq
              · exact hb2 q h
            · rw [hb3]; simp only [List.length_cons]; push_cast; ring
          · intro hr
            obtain ⟨he1, he2⟩ := hpost.expired hr
            refine ⟨?_, ?_⟩
            · intro q hq2
              rcases List.mem_cons.mp hq2 with h | h
              · rw [h]; exact hq
              · exact he1 q h
            · simp only [List.length_cons]; push_cast
              have : step * ((progressReports new).length + 1 : Int)
                  = step * (progressReports new).length + step := by ring
              linarith
          · intro i hi
            cases i with
            | zero => simpa using ht
            | succ i =>
              have := hpost.inBudget i (by simpa using hi)
              push_cast
              have h2 : step * ((i : Int) + 1) = step * i + step := by ring
              linarith
          · simp; omega
        · intro q hq2
          rw [hsplit] at hq2
          rcases List.mem_cons.mp hq2 with h | h
          · exact ⟨s.xfers, h⟩
          · exact horacle q h
        · rw [writePayloads_append, writePayloads_append, hwp, hmidW, hheadW]
          rfl
        · rw [hsplit, sleeps_append, sleeps_append, hsl, hmidS, hheadS]
          by_cases hp : 0 < t - step
          · have hne : progressReports new ≠ [] := fun h => by
              have := hpost.noQuery.mp h
              omega
            obtain ⟨m, hm⟩ : ∃ m, (progressReports new).length = m + 1 :=
              ⟨(progressReports new).length - 1, by
                have := List.length_pos.mpr hne
                omega⟩
            rw [if_pos hp, List.length_cons, hm]
            rfl
          · have he : progressReports new = [] := hpost.noQuery.mpr (by omega)
            rw [if_neg hp, List.length_cons, he]
            rfl
        · rw [hsplit, transfers_append, transfers_append, hmidT, hheadT]
          simp [htc]
        · rw [hsplit, hx, f1, hx1]
          simp only [List.length_cons]
          omega
        · rw [hwb, f2]; rfl
        · rw [hob, f3]; rfl
        · rw [hst, f4]; rfl
        · rw [hwpos, f5]; rfl
        · rw [hrd, f6]; rfl
    · simp only [ht, if_false]
      refine ⟨0, s, [], rfl, by simp, ?_, ?_, rfl, rfl, rfl, rfl, rfl, rfl, rfl, rfl, rfl⟩
      · refine ⟨le_rfl, fun h => by omega, fun _ => ⟨by simp [progressReports], ?_⟩, ?_, ?_⟩
        · simp [progressReports]; omega
        · intro i hi; simp [progressReports] at hi
        · simp [progressReports]; omega
      · intro q hq; simp [progressReports] at hq

/-- What `waitForFinish` does for a positive step and `errorState = 0`: it
sleeps `initialDelay`, then polls; enough fuel gives a result, described by
`WaitPost` over the reports of the queries it made. -/
theorem waitForFinish_spec (tp : Transport) (step : Int) (hstep : 0 < step) (s : Host)
    (initialDelay timeout : Int) :
    ∃ (r : Int) (s2 : Host) (new : List Event),
      (∀ fuel, (waitBudget initialDelay timeout).toNat < fuel →
        waitForFinish tp fuel s initialDelay step 0 timeout = some (r, s2)) ∧
      s2.trace = s.trace ++ Event.usleep initialDelay :: new ∧
      WaitPost (waitBudget initialDelay timeout) step r (progressReports new) ∧
      (∀ q ∈ progressReports new, ∃ i, q = progressByte tp i) ∧
      writePayloads new = [] ∧
      sleeps new = List.replicate ((progressReports new).length - 1) step ∧
      (transfers new).length = (progressReports new).length ∧
      s2.xfers = s.xfers + (progressReports new).length ∧
      s2.writeBuf = s.writeBuf ∧ s2.outBuf = s.outBuf ∧ s2.stat = s.stat ∧
      s2.writeBufPos = s.writeBufPos ∧ s2.readDelay = s.readDelay := by
  obtain ⟨r, s2, new, hrun, htr, hpost, horacle, hwp, hsl, htc, hx, hwb, hob, hst, hwpos, hrd⟩ :=
    waitLoop_spec tp step hstep ((waitBudget initialDelay timeout).toNat + 1)
      (usleep s initialDelay) (waitBudget initialDelay timeout) (Nat.lt_succ_self _)
  refine ⟨r, s2, new, ?_, ?_, hpost, horacle, hwp, hsl, htc, hx, hwb, hob, hst, hwpos, hrd⟩
  · intro fuel hfuel
    exact waitLoop_mono tp step 0 _ fuel _ _ _ (by omega) hrun
  · rw [htr]; simp [usleep]

/-- C10: for every step > 0 (any initial delay and timeout, `errorState = 0`)
`waitForFinish` terminates: every fuel above its budget gives the same
result `r`.  It makes only GetProgress queries; `r` is never negative; `r` is
positive exactly when one of the queries reported idle (0), that query being
the last one made and `r` the budget left at it; `r` is 0 exactly when every
query reported busy and the budget (timeout minus initial delay, `step` per
query) ran out; and every query was made with budget left. -/
theorem waitForFinish_terminates (tp : Transport) (s : Host)
    (initialDelay step timeout : Int) (hstep : 0 < step) :
    ∃ (r : Int) (s2 : Host) (new : List Event),
      (∀ fuel, (waitBudget initialDelay timeout).toNat < fuel →
        waitForFinish tp fuel s initialDelay step 0 timeout = some (r, s2)) ∧
      s2.trace = s.trace ++ Event.usleep initialDelay :: new ∧
      (transfers new).length = (progressReports new).length ∧
      0 ≤ r ∧
      (0 < r ↔ 0 ∈ progressReports new) ∧
      (∀ q ∈ (progressReports new).dropLast, q ≠ 0) ∧
      (0 < r → r = waitBudget initialDelay timeout
                    - step * (((progressReports new).length : Int) - 1)) ∧
      (r = 0 ↔ (∀ q ∈ progressReports new, q ≠ 0) ∧
                waitBudget initialDelay timeout
                  - step * ((progressReports new).length : Int) ≤ 0) ∧
      (∀ i : Nat, i < (progressReports new).length →
        0 < waitBudget initialDelay timeout - step * (i : Int)) := by
  obtain ⟨r, s2, new, hrun, htr, hpost, _, _, _, htc, _⟩ :=
    waitForFinish_spec tp step hstep s initialDelay timeout
  have hidle : 0 < r ↔ 0 ∈ progressReports new := by
    constructor
    · intro hr
      obtain ⟨busy, hb, _, _⟩ := hpost.idle hr
      rw [hb]; simp
    · intro hmem
      rcases lt_or_eq_of_le hpost.nonneg with h | h
      · exact h
      · exact absurd rfl ((hpost.expired h.symm).1 0 hmem)
  refine ⟨r, s2, new, hrun, htr, htc, hpost.nonneg, hidle, ?_, ?_, ?_, hpost.inBudget⟩
  · intro q hq
    rcases lt_or_eq_of_le hpost.nonneg with h | h
    · obtain ⟨busy, hb, hb2, _⟩ := hpost.idle h
      rw [hb, List.dropLast_concat] at hq
      exact hb2 q hq
    · exact (hpost.expired h.symm).1 q (List.mem_of_mem_dropLast hq)
  · intro hr
    obtain ⟨busy, hb, _, hb3⟩ := hpost.idle hr
    rw [hb3, hb]
    simp
  · constructor
    · exact hpost.expired
    · intro h
      rcases lt_or_eq_of_le hpost.nonneg with h2 | h2
      · exact absurd rfl (h.1 0 (hidle.mp h2))
      · exact h2.symm

/-- Instance of `waitForFinish_terminates`: the always-idle device, polled
with the parameters `flushUart` uses. -/
theorem waitForFinish_terminates_witness :
    (0 : Int) < 1000 ∧
      ∃ (r : Int) (s2 : Host),
        (∀ fuel, (waitBudget 2000 4999900).toNat < fuel →
          waitForFinish idleDevice fuel Host.init 2000 1000 0 4999900 = some (r, s2)) ∧
        0 ≤ r :=
  ⟨by decide,
    match waitForFinish_terminates idleDevice Host.init 2000 1000 4999900 (by decide) with
    | ⟨r, s2, _, h1, _, _, h2, _⟩ => ⟨r, s2, h1, h2⟩⟩

/-! ## Flush against a device that stays busy (C8) -/

theorem int32_of_range (x : Int) (h0 : 0 ≤ x) (h1 : x ≤ 2147483647) : int32 x = x := by
  unfold int32
  omega

theorem waitForFinish_mono (tp : Transport) (fuel fuel2 : Nat) (s : Host)
    (initialDelay step e timeout : Int) (x : Int × Host) (hle : fuel ≤ fuel2)
    (h : waitForFinish tp fuel s initialDelay step e timeout = some x) :
    waitForFinish tp fuel2 s initialDelay step e timeout = some x :=
  waitLoop_mono tp step e fuel fuel2 _ _ x hle h

theorem sendChunk_trace (tp : Transport) (s : Host) (pos size : Nat) :
    ∃ payload rv, (sendChunk tp s pos size).2.trace
        = s.trace ++ [Event.ctrlOut COMMAND_WRITE_UART 0 0 payload rv] ∧
      (sendChunk tp s pos size).1 = rv ∧
      rv = tp.out s.xfers COMMAND_WRITE_UART 0 0 payload ∧
      payload = (blit s.outBuf 0 ((s.writeBuf.drop pos).take
        (if size > MAX_PACKET_LEN then MAX_PACKET_LEN else size))).take
        (if size > MAX_PACKET_LEN then MAX_PACKET_LEN else size) :=
  ⟨_, _, rfl, rfl, rfl, rfl⟩

theorem chunk_events (payload : List Byte) (rv us : Int) (new : List Event) :
    writePayloads (Event.ctrlOut COMMAND_WRITE_UART 0 0 payload rv :: Event.usleep us :: new)
        = payload :: writePayloads new ∧
      progressReports (Event.ctrlOut COMMAND_WRITE_UART 0 0 payload rv :: Event.usleep us :: new)
        = progressReports new ∧
      transfers (Event.ctrlOut COMMAND_WRITE_UART 0 0 payload rv :: Event.usleep us :: new)
        = Event.ctrlOut COMMAND_WRITE_UART 0 0 payload rv :: transfers new ∧
      sleeps (Event.ctrlOut COMMAND_WRITE_UART 0 0 payload rv :: Event.usleep us :: new)
        = us :: sleeps new :=
  ⟨rfl, rfl, rfl, rfl⟩

theorem accountChunk_frame (r : Int × Host) (pos size : Nat) :
    (accountChunk r pos size).1.trace = r.2.trace ∧
      (accountChunk r pos size).1.xfers = r.2.xfers ∧
      (accountChunk r pos size).1.writeBuf = r.2.writeBuf ∧
      (accountChunk r pos size).1.outBuf = r.2.outBuf := by
  unfold accountChunk
  by_cases h : 0 < r.1 <;> simp [h]

/-- C8: with a non-empty outbound buffer, a timeout `T` ms with
`2100 < T * 1000` (representable as a C `int`), WriteUart transfers that do
not fail and a device whose every progress report is busy, `flushUart T`
terminates with the timeout result 0 after exactly one WriteUart transfer and
exactly `ceil((T * 1000 - 2100) / 1000)` GetProgress queries, having slept
2000 us and then 1000 us between consecutive queries; for `T = 5000` that is
4998 queries and `loader_port_write_flush` returns
`ESP_LOADER_ERROR_TIMEOUT`. -/
theorem flush_busy_times_out (tp : Transport) (s : Host) (T : Int)
    (hne : 0 < s.writeBufPos) (hT : 2100 < T * 1000) (hrange : T * 1000 ≤ 2147483647)
    (hsend : ∀ i payload, 0 ≤ tp.out i COMMAND_WRITE_UART 0 0 payload)
    (hbusy : ∀ i, progressByte tp i ≠ 0) :
    ∃ (s2 : Host) (new : List Event),
      (∀ fuel, (T * 1000).toNat < fuel → flushUart tp fuel s T = some (0, s2)) ∧
      s2.trace = s.trace ++ new ∧
      (writePayloads new).length = 1 ∧
      ((progressReports new).length : Int) = (T * 1000 - 2100 + 999) / 1000 ∧
      (transfers new).length = 1 + (progressReports new).length ∧
      sleeps new = 2000 :: List.replicate ((progressReports new).length - 1) 1000 ∧
      (T = 5000 → (progressReports new).length = 4998 ∧
        ∀ fuel, (5000000 : Int).toNat < fuel →
          loader_port_write_flush tp fuel s = some (ESP_LOADER_ERROR_TIMEOUT, s2)) := by
  have hscale : int32 (T * 1000) = T * 1000 := int32_of_range _ (by omega) hrange
  obtain ⟨payload, rv, hstr, hsret, hrv, _⟩ :=
    sendChunk_trace tp { s with writeBufPos := 0, readDelay := 1 } 0 s.writeBufPos
  have hret : ¬ ((sendChunk tp { s with writeBufPos := 0, readDelay := 1 } 0 s.writeBufPos).1 < 0) := by
    rw [hsret, hrv]
    exact not_lt.mpr (hsend _ _)
  obtain ⟨af1, af2, _, _⟩ := accountChunk_frame
    (sendChunk tp { s with writeBufPos := 0, readDelay := 1 } 0 s.writeBufPos) 0 s.writeBufPos
  obtain ⟨r, s2, new, hrun, htr, hpost, horacle, hwp, hsl, htc, _⟩ :=
    waitForFinish_spec tp 1000 (by decide)
      (accountChunk (sendChunk tp { s with writeBufPos := 0, readDelay := 1 } 0 s.writeBufPos)
        0 s.writeBufPos).1 2000 (T * 1000 - 100)
  have hbud : waitBudget 2000 (T * 1000 - 100) = T * 1000 - 2100 := by
    unfold waitBudget
    rw [if_neg (by omega)]
    omega
  rw [hbud] at hpost hrun
  have hr0 : r = 0 := by
    rcases lt_or_eq_of_le hpost.nonneg with h | h
    · obtain ⟨busy, hb, _, _⟩ := hpost.idle h
      obtain ⟨i, hi⟩ := horacle 0 (by rw [hb]; simp)
      exact absurd hi.symm (hbusy i)
    · exact h.symm
  subst hr0
  have hexp := (hpost.expired rfl).2
  have hpos : 0 < (progressReports new).length := by
    rcases Nat.eq_zero_or_pos (progressReports new).length with h | h
    · rw [h] at hexp
      simp at hexp
      omega
    · exact h
  have hlast := hpost.inBudget ((progressReports new).length - 1) (by omega)
  have hcast : (((progressReports new).length - 1 : Nat) : Int)
      = ((progressReports new).length : Int) - 1 := by omega
  rw [hcast] at hlast
  have hcount : ((progressReports new).length : Int) = (T * 1000 - 2100 + 999) / 1000 := by
    omega
  have hflush : ∀ fuel, (T * 1000).toNat < fuel → flushUart tp fuel s T = some (0, s2) := by
    intro fuel hfuel
    obtain ⟨f, rfl⟩ : ∃ f, fuel = f + 1 := ⟨fuel - 1, by omega⟩
    have hw := hrun f (by omega)
    unfold flushUart
    rw [hscale, flushLoop]
    have hc : 0 < s.writeBufPos ∧ 0 < T * 1000 := ⟨hne, by omega⟩
    simp only [hc, and_self, if_true, hret, if_false, hw]
    simp
  obtain ⟨e1, e2, e3, e4⟩ := chunk_events payload rv 2000 new
  refine ⟨s2, Event.ctrlOut COMMAND_WRITE_UART 0 0 payload rv :: Event.usleep 2000 :: new, hflush,
    ?_, ?_, ?_, ?_, ?_, ?_⟩
  · rw [htr, af1, hstr]; simp
  · rw [e1, hwp]; rfl
  · rw [e2]; exact hcount
  · rw [e2, e3, List.length_cons, htc]; omega
  · rw [e2, e4, hsl]
  · intro hT5
    subst hT5
    refine ⟨?_, ?_⟩
    · rw [e2]
      omega
    · intro fuel hfuel
      unfold loader_port_write_flush
      rw [hflush fuel (by simpa using hfuel)]
      simp

/-! ## Chunked flush (C1) -/

theorem blit_length (dst : List Byte) (off : Nat) (src : List Byte) :
    (blit dst off src).length = dst.length := by
  simp only [blit, List.length_take, List.length_append, List.length_drop]
  omega

theorem blit_zero_take (dst src : List Byte) (h : src.length ≤ dst.length) :
    (blit dst 0 src).take src.length = src := by
  simp only [blit, List.take_zero, List.nil_append, Nat.zero_add, List.take_take]
  rw [Nat.min_eq_left h, List.take_append_of_le_length (le_refl _), List.take_length]

theorem chunked_nil : Chunked [] [] :=
  ⟨rfl, rfl, by simp, by simp⟩

theorem chunked_cons (ps : List (List Byte)) (l : List Byte) (k : Nat)
    (hk : k = if l.length > 32 then 32 else l.length) (hpos : 0 < l.length)
    (h : Chunked ps (l.drop k)) : Chunked (l.take k :: ps) l := by
  by_cases hbig : l.length > 32
  · rw [if_pos hbig] at hk
    subst hk
    have hcount := h.count
    rw [List.length_drop] at hcount
    have hne : ps ≠ [] := by
      intro hnil
      rw [hnil] at hcount
      simp at hcount
      omega
    refine ⟨?_, ?_, ?_, ?_⟩
    · rw [List.flatten_cons, h.join, List.take_append_drop]
    · rw [List.length_cons, hcount]; omega
    · intro p hp
      rw [List.dropLast_cons_of_ne_nil hne] at hp
      rcases List.mem_cons.mp hp with hp | hp
      · rw [hp, List.length_take]; omega
      · exact h.full p hp
    · intro p hp
      obtain ⟨q, ps2, rfl⟩ : ∃ q ps2, ps = q :: ps2 := by
        cases ps with
        | nil => exact absurd rfl hne
        | cons q ps2 => exact ⟨q, ps2, rfl⟩
      rw [List.getLast?_cons_cons] at hp
      have := h.last p hp
      rw [List.length_drop] at this
      rw [this]
      have hmod : (l.length - 32) % 32 = l.length % 32 := by omega
      rw [hmod]
  · rw [if_neg hbig] at hk
    subst hk
    have hcount := h.count
    have hps : ps = [] := by
      rw [List.length_drop] at hcount
      simp at hcount
      exact hcount
    subst hps
    refine ⟨by simp, ?_, by simp, ?_⟩
    · simp; omega
    · intro p hp
      simp at hp
      subst hp
      by_cases h32 : l.length = 32
      · simp [h32]
      · have hm : l.length % 32 = l.length := Nat.mod_eq_of_lt (by omega)
        have hz : ¬ (l.length % 32 = 0) := by omega
        rw [if_neg hz, hm]

/-- The flush loop against a device that takes every chunk in full, when
every poll phase sees the device idle: with enough fuel it runs to the end of
the data and returns `result`, and the WriteUart payloads it sends cut the
remaining bytes `writeBuf[pos .. pos + size)` into chunks of 32. -/
theorem flushLoop_delivers (tp : Transport)
    (hsend : ∀ i payload, tp.out i COMMAND_WRITE_UART 0 0 payload = (payload.length : Int)) :
    ∀ (s : Host) (pos size : Nat) (t : Int), PollPhasesIdle tp s pos size t →
      0 < t → pos + size ≤ s.writeBuf.length → 32 ≤ s.outBuf.length →
      ∃ (fuel0 : Nat) (s2 : Host) (new : List Event),
        (∀ fuel, fuel0 ≤ fuel → ∀ result,
          flushLoop tp fuel s pos size t result = some (result, s2)) ∧
        s2.trace = s.trace ++ new ∧
        Chunked (writePayloads new) ((s.writeBuf.drop pos).take size) ∧
        (transfers new).length = (writePayloads new).length + (progressReports new).length := by
  intro s pos size t h
  induction h with
  | done s pos t =>
    intro _ _ _
    refine ⟨1, s, [], ?_, by simp, by simpa using chunked_nil, rfl⟩
    intro fuel hfuel result
    obtain ⟨f, rfl⟩ : ∃ f, fuel = f + 1 := ⟨fuel - 1, by omega⟩
    simp [flushLoop]
  | chunk s pos size t fuelw ret s3 hsize hw hret _ ih =>
    intro ht hbuf hout
    obtain ⟨payload, rv, hstr, hsret, hrv, hpay⟩ := sendChunk_trace tp s pos size
    have hblk : (if size > MAX_PACKET_LEN then MAX_PACKET_LEN else size)
        = if size > 32 then 32 else size := rfl
    rw [hblk] at hpay
    have hclen : ((s.writeBuf.drop pos).take (if size > 32 then 32 else size)).length
        = if size > 32 then 32 else size := by
      rw [List.length_take, List.length_drop]
      split <;> omega
    have hpay2 : payload = (s.writeBuf.drop pos).take (if size > 32 then 32 else size) := by
      have hb := blit_zero_take s.outBuf
        ((s.writeBuf.drop pos).take (if size > 32 then 32 else size))
        (by rw [hclen]; split <;> omega)
      rw [hclen] at hb
      rw [hpay]
      exact hb
    have hrvpos : 0 < rv := by
      rw [hrv, hsend, hpay2, hclen]
      split <;> omega
    have hA : accountChunk (sendChunk tp s pos size) pos size
        = ({ (sendChunk tp s pos size).2 with
              stat := recordWriteStat (sendChunk tp s pos size).2.stat (sendChunk tp s pos size).1 },
            pos + (if size > 32 then 32 else size), size - (if size > 32 then 32 else size)) := by
      unfold accountChunk
      rw [hsret, if_pos hrvpos]
      rfl
    rw [hA] at hw ih
    dsimp only at hw ih
    obtain ⟨r2, s4, neww, hrun, htrw, hpostw, _, hwpw, _, htcw, _, hwbw, hobw, _⟩ :=
      waitForFinish_spec tp 1000 (by decide)
        { (sendChunk tp s pos size).2 with
          stat := recordWriteStat (sendChunk tp s pos size).2.stat (sendChunk tp s pos size).1 }
        2000 (t - 100)
    have hsame : (ret, s3) = (r2, s4) := by
      have h1 := waitForFinish_mono tp fuelw (max fuelw ((waitBudget 2000 (t - 100)).toNat + 1))
        _ _ _ _ _ _ (le_max_left _ _) hw
      have h2 := hrun (max fuelw ((waitBudget 2000 (t - 100)).toNat + 1))
        (lt_of_lt_of_le (Nat.lt_succ_self _) (le_max_right _ _))
      rw [h1] at h2
      exact Option.some.inj h2
    obtain ⟨hr2, hs4⟩ := Prod.mk.inj hsame
    subst hr2 hs4
    have hwb3 : s3.writeBuf = s.writeBuf := by rw [hwbw]; rfl
    have hob3 : s3.outBuf.length = s.outBuf.length := by
      rw [hobw]
      exact blit_length _ _ _
    obtain ⟨fuel0, s2, new2, hrun2, htr2, hch2, htc2⟩ := ih hret
      (by rw [hwb3]; split <;> omega) (by rw [hob3]; exact hout)
    obtain ⟨e1, e2, e3, _⟩ := chunk_events payload rv 2000 (neww ++ new2)
    refine ⟨max ((waitBudget 2000 (t - 100)).toNat + 1) fuel0 + 1, s2,
      Event.ctrlOut COMMAND_WRITE_UART 0 0 payload rv :: Event.usleep 2000 :: (neww ++ new2),
      ?_, ?_, ?_, ?_⟩
    · intro fuel hfuel result
      obtain ⟨f, rfl⟩ : ∃ f, fuel = f + 1 := ⟨fuel - 1, by omega⟩
      have hf1 : (waitBudget 2000 (t - 100)).toNat < f := by
        have := le_max_left ((waitBudget 2000 (t - 100)).toNat + 1) fuel0
        omega
      have hf2 : fuel0 ≤ f := by
        have := le_max_right ((waitBudget 2000 (t - 100)).toNat + 1) fuel0
        omega
      have hneg : ¬ ((sendChunk tp s pos size).1 < 0) := by rw [hsret]; omega
      rw [flushLoop]
      simp only [hsize, ht, and_self, if_true, hneg, if_false, hA, hrun f hf1]
      have hr1 : ¬ (ret < 0) := by omega
      have hr2 : ¬ (ret = 0) := by omega
      simp only [hr1, hr2, if_false]
      exact hrun2 f hf2 result
    · rw [htr2, htrw]
      simp only [hstr]
      simp
    · rw [e1, writePayloads_append, hwpw, List.nil_append, hpay2]
      have hl : ((s.writeBuf.drop pos).take size).length = size := by
        rw [List.length_take, List.length_drop]; omega
      have htake : (s.writeBuf.drop pos).take (if size > 32 then 32 else size)
          = ((s.writeBuf.drop pos).take size).take (if size > 32 then 32 else size) := by
        rw [List.take_take]
        congr 1
        split <;> omega
      rw [htake]
      apply chunked_cons
      · rw [hl]
      · rw [hl]; exact hsize
      · rw [List.drop_take, List.drop_drop]
        rw [hwb3] at hch2
        exact hch2
    · rw [e2, e3, e1, List.length_cons, List.length_cons, transfers_append,
        writePayloads_append, progressReports_append, hwpw, List.length_append,
        List.length_append, htcw, htc2]
      simp only [List.length_append, List.length_nil]
      omega

/-- One chunk against a device that takes every chunk in full: the transfer
returns a positive count and the loop advances by the chunk length. -/
theorem chunk_step (tp : Transport)
    (hsend : ∀ i payload, tp.out i COMMAND_WRITE_UART 0 0 payload = (payload.length : Int))
    (s : Host) (pos size : Nat) (hsize : 0 < size) (hbuf : pos + size ≤ s.writeBuf.length)
    (hout : 32 ≤ s.outBuf.length) :
    ∃ s1 : Host, accountChunk (sendChunk tp s pos size) pos size
        = (s1, pos + (if size > 32 then 32 else size), size - (if size > 32 then 32 else size)) ∧
      s1.writeBuf = s.writeBuf ∧ s1.outBuf.length = s.outBuf.length := by
  obtain ⟨payload, rv, _, hsret, hrv, hpay⟩ := sendChunk_trace tp s pos size
  have hblk : (if size > MAX_PACKET_LEN then MAX_PACKET_LEN else size)
      = if size > 32 then 32 else size := rfl
  rw [hblk] at hpay
  have hclen : ((s.writeBuf.drop pos).take (if size > 32 then 32 else size)).length
      = if size > 32 then 32 else size := by
    rw [List.length_take, List.length_drop]
    split <;> omega
  have hpay2 : payload = (s.writeBuf.drop pos).take (if size > 32 then 32 else size) := by
    have hb := blit_zero_take s.outBuf
      ((s.writeBuf.drop pos).take (if size > 32 then 32 else size))
      (by rw [hclen]; split <;> omega)
    rw [hclen] at hb
    rw [hpay]
    exact hb
  have hrvpos : 0 < rv := by
    rw [hrv, hsend, hpay2, hclen]
    split <;> omega
  refine ⟨{ (sendChunk tp s pos size).2 with
      stat := recordWriteStat (sendChunk tp s pos size).2.stat (sendChunk tp s pos size).1 },
    ?_, rfl, blit_length _ _ _⟩
  unfold accountChunk
  rw [hsret, if_pos hrvpos]
  rfl

/-- Against a device that takes every chunk in full and reports idle at every
query, every poll phase of a flush of at most `32 * n` bytes sees the device
idle, provided the budget exceeds `2100 * n` us. -/
theorem pollPhasesIdle_of_idle (tp : Transport)
    (hsend : ∀ i payload, tp.out i COMMAND_WRITE_UART 0 0 payload = (payload.length : Int))
    (hidle : ∀ i, progressByte tp i = 0) :
    ∀ (n : Nat) (s : Host) (pos size : Nat) (t : Int),
      size ≤ 32 * n → 2100 * (n : Int) < t → pos + size ≤ s.writeBuf.length →
      32 ≤ s.outBuf.length → PollPhasesIdle tp s pos size t := by
  intro n
  induction n with
  | zero =>
    intro s pos size t hsz _ _ _
    obtain rfl : size = 0 := by omega
    exact PollPhasesIdle.done s pos t
  | succ n ih =>
    intro s pos size t hsz ht hbuf hout
    rcases Nat.eq_zero_or_pos size with h0 | hsize
    · subst h0
      exact PollPhasesIdle.done s pos t
    · obtain ⟨s1, hA, hwb1, hob1⟩ := chunk_step tp hsend s pos size hsize hbuf hout
      obtain ⟨r, s2, new, hrun, _, hpost, horacle, _, _, _, _, hwb2, hob2, _⟩ :=
        waitForFinish_spec tp 1000 (by decide) s1 2000 (t - 100)
      have hbud : waitBudget 2000 (t - 100) = t - 2100 := by
        unfold waitBudget
        push_cast at ht
        rw [if_neg (by omega)]
        omega
      have hzero : ∀ q ∈ progressReports new, q = 0 := by
        intro q hq
        obtain ⟨i, hi⟩ := horacle q hq
        rw [hi]
        exact hidle i
      have hr : r = t - 2100 := by
        rw [hbud] at hpost
        rcases lt_or_eq_of_le hpost.nonneg with h | h
        · obtain ⟨busy, hb, hb2, hb3⟩ := hpost.idle h
          have hnil : busy = [] := by
            cases busy with
            | nil => rfl
            | cons q rest =>
              exact absurd (hzero q (by rw [hb]; simp)) (hb2 q (List.mem_cons_self _ _))
          rw [hb3, hnil]
          simp
        · obtain ⟨he1, he2⟩ := hpost.expired h.symm
          cases hqs : progressReports new with
          | nil =>
            rw [hqs] at he2
            simp at he2
            push_cast at ht
            omega
          | cons q rest =>
            exact absurd (hzero q (by rw [hqs]; simp)) (he1 q (by rw [hqs]; simp))
      have hw : waitForFinish tp ((waitBudget 2000 (t - 100)).toNat + 1)
          (accountChunk (sendChunk tp s pos size) pos size).1 2000 1000 0 (t - 100)
          = some (r, s2) := by
        rw [hA]
        exact hrun _ (Nat.lt_succ_self _)
      refine PollPhasesIdle.chunk s pos size t _ r s2 hsize hw ?_ ?_
      · rw [hr]
        push_cast at ht
        omega
      · rw [hA]
        apply ih
        · dsimp only
          split <;> omega
        · rw [hr]
          push_cast at ht
          omega
        · rw [hwb2, hwb1]
          dsimp only
          split <;> omega
        · rw [hob2, hob1]
          exact hout

/-- C1: a byte sequence `b` of 1 to 4096 bytes is written into the empty
outbound buffer (`writeUart` returns `len(b)`) and flushed with
`flushUart 5000`.  If every WriteUart
transfer returns the chunk length and every poll phase sees the device idle
before its budget runs out, then with enough fuel the flush returns
`len(b)`; the WriteUart payloads it sent, in order, concatenate to `b`, there
are exactly `ceil(len(b) / 32)` of them, all but the last carry 32 bytes and
the last carries `len(b) mod 32` bytes (32 when 32 divides `len(b)`); and
every other transfer it made is a GetProgress query. -/
theorem flush_delivers (tp : Transport) (s0 : Host) (b : List Byte) (wt : Int)
    (hb1 : 1 ≤ b.length) (hb2 : b.length ≤ 4096)
    (hempty : s0.writeBufPos = 0) (hwb : s0.writeBuf.length = 4096)
    (hob : s0.outBuf.length = 32)
    (hsend : ∀ i payload, tp.out i COMMAND_WRITE_UART 0 0 payload = (payload.length : Int))
    (hpoll : PollPhasesIdle tp { accumulate s0 b with writeBufPos := 0, readDelay := 1 }
      0 b.length 5000000) :
    writeUart s0 b wt = some ((b.length : Int), accumulate s0 b) ∧
    ∃ (fuel0 : Nat) (s2 : Host) (new : List Event),
      (∀ fuel, fuel0 ≤ fuel →
        flushUart tp fuel (accumulate s0 b) 5000 = some ((b.length : Int), s2)) ∧
      s2.trace = s0.trace ++ new ∧
      (writePayloads new).flatten = b ∧
      (writePayloads new).length = (b.length + 31) / 32 ∧
      (∀ p ∈ (writePayloads new).dropLast, p.length = 32) ∧
      (∀ p ∈ (writePayloads new).getLast?,
        p.length = if b.length % 32 = 0 then 32 else b.length % 32) ∧
      (transfers new).length = (writePayloads new).length + (progressReports new).length := by
  obtain ⟨fuel0, s2, new, hrun, htr, hch, htc⟩ := flushLoop_delivers tp hsend _ 0 b.length
    5000000 hpoll (by decide)
    (by simp [accumulate, blit_length, hwb]; omega) (by simp [accumulate, hob])
  have hbuf : (({ accumulate s0 b with writeBufPos := 0, readDelay := 1 } : Host).writeBuf.drop
      0).take b.length = b := by
    have := blit_zero_take s0.writeBuf b (by omega)
    simpa [accumulate, hempty] using this
  rw [hbuf] at hch
  have hfits : s0.writeBufPos + b.length ≤ s0.writeBuf.length := by omega
  refine ⟨by simp [writeUart, hfits], fuel0, s2, new, ?_, ?_, hch.join, hch.count, hch.full,
    hch.last, htc⟩
  · intro fuel hfuel
    have := hrun fuel hfuel (b.length : Int)
    unfold flushUart
    simpa [accumulate, hempty, int32] using this
  · rw [htr]; simp [accumulate]

theorem init_writeBuf_length : Host.init.writeBuf.length = 4096 := by
  show (List.replicate WRITE_BUF_SIZE 0).length = 4096
  rw [List.length_replicate]
  rfl

theorem init_outBuf_length : Host.init.outBuf.length = 32 := by
  show (List.replicate MAX_PACKET_LEN 0).length = 32
  rw [List.length_replicate]
  rfl

theorem written_writeBuf_length (s0 : Host) (b : List Byte) :
    ({ accumulate s0 b with writeBufPos := 0, readDelay := 1 } : Host).writeBuf.length
      = s0.writeBuf.length :=
  blit_length _ _ _

/-- Instance of `flush_delivers`: 33 bytes flushed to the always-idle device
arrive as two chunks. -/
theorem flush_delivers_witness :
    1 ≤ (List.range 33).length ∧ (List.range 33).length ≤ 4096 ∧
      PollPhasesIdle idleDevice
        { accumulate Host.init (List.range 33) with writeBufPos := 0, readDelay := 1 }
        0 (List.range 33).length 5000000 ∧
      writeUart Host.init (List.range 33) 0
        = some (((List.range 33).length : Int), accumulate Host.init (List.range 33)) ∧
      ∃ (fuel0 : Nat) (s2 : Host) (new : List Event),
        (∀ fuel, fuel0 ≤ fuel →
          flushUart idleDevice fuel (accumulate Host.init (List.range 33)) 5000
            = some (((List.range 33).length : Int), s2)) ∧
        (writePayloads new).flatten = List.range 33 ∧
        (writePayloads new).length = ((List.range 33).length + 31) / 32 :=
  have hp : PollPhasesIdle idleDevice
      { accumulate Host.init (List.range 33) with writeBufPos := 0, readDelay := 1 }
      0 (List.range 33).length 5000000 :=
    pollPhasesIdle_of_idle idleDevice (fun _ _ => rfl) (fun _ => rfl) 2 _ 0 _ 5000000
      (by decide) (by decide)
      (by rw [written_writeBuf_length, init_writeBuf_length]; decide)
      (le_of_eq init_outBuf_length.symm)
  ⟨by decide, by decide, hp,
    match flush_delivers idleDevice Host.init (List.range 33) 0 (by decide) (by decide) rfl
        init_writeBuf_length init_outBuf_length (fun _ _ => rfl) hp with
    | ⟨h0, fuel0, s2, new, h1, _, h3, h4, _⟩ => ⟨h0, fuel0, s2, new, h1, h3, h4⟩⟩

/-- Instance of `flush_busy_times_out`: three buffered bytes, the always-busy
device, the 5000 ms timeout of `loader_port_write_flush`. -/
theorem flush_busy_times_out_witness :
    0 < (accumulate Host.init [1, 2, 3]).writeBufPos ∧ (2100 : Int) < 5000 * 1000 ∧
      ∃ (s2 : Host) (new : List Event),
        (∀ fuel, ((5000 : Int) * 1000).toNat < fuel →
          flushUart busyDevice fuel (accumulate Host.init [1, 2, 3]) 5000 = some (0, s2)) ∧
        (writePayloads new).length = 1 ∧
        (progressReports new).length = 4998 :=
  ⟨by decide, by decide,
    match flush_busy_times_out busyDevice (accumulate Host.init [1, 2, 3]) 5000 (by decide)
        (by decide) (by decide) (fun _ payload => Int.natCast_nonneg payload.length)
        (fun _ => Nat.one_ne_zero) with
    | ⟨s2, new, h1, _, h3, _, _, _, h7⟩ => ⟨s2, new, h1, h3, (h7 rfl).1⟩⟩

/-! ## Buffered write (C5) -/

/-- C5, as stated, fails: a write of one byte into a full outbound buffer
(`writeBufPos = 4096`) is not turned down with a failure result and the state
left as it was; no capacity check is made and the call runs into the
out-of-bounds `memcpy`, for which there is no result. -/
theorem write_full_buffer_unchecked :
    writeUart { Host.init with writeBufPos := 4096 } [170] 0 = none ∧
      loader_port_serial_write { Host.init with writeBufPos := 4096 } [170] 0 = none ∧
      ¬ ∃ e s2, loader_port_serial_write { Host.init with writeBufPos := 4096 } [170] 0
          = some (e, s2) ∧ e ≠ ESP_LOADER_SUCCESS ∧
          s2 = { Host.init with writeBufPos := 4096 } := by
  have hlen : ({ Host.init with writeBufPos := 4096 } : Host).writeBuf.length = 4096 :=
    init_writeBuf_length
  have hw : writeUart { Host.init with writeBufPos := 4096 } [170] 0 = none := by
    unfold writeUart
    rw [hlen]
    rfl
  have hl : loader_port_serial_write { Host.init with writeBufPos := 4096 } [170] 0 = none := by
    unfold loader_port_serial_write
    rw [hw]
  refine ⟨hw, hl, ?_⟩
  rintro ⟨e, s2, he, _⟩
  rw [hl] at he
  exact Option.noConfusion he

/-- C5, amended: when `p + s <= 4096` (the size of `writeBuf`) `writeUart`
returns `s` and `loader_port_serial_write` reports success, the buffer holds
the old bytes followed by the new bytes (the bytes behind them unchanged),
`writeBufPos` becomes `p + s`, and no control transfer or sleep is made.
There is no capacity check: `loader_port_serial_write` never returns a failure
result, and for `p + s > 4096` the call runs into the out-of-bounds `memcpy`
(no result). -/
theorem write_appends (s : Host) (data : List Byte) (timeout : Int) :
    (s.writeBufPos + data.length ≤ s.writeBuf.length →
        writeUart s data timeout = some ((data.length : Int), accumulate s data) ∧
        loader_port_serial_write s data timeout
          = some (ESP_LOADER_SUCCESS, accumulate s data) ∧
        (accumulate s data).writeBuf
          = s.writeBuf.take s.writeBufPos ++ data
              ++ s.writeBuf.drop (s.writeBufPos + data.length) ∧
        (accumulate s data).writeBufPos = s.writeBufPos + data.length ∧
        (accumulate s data).trace = s.trace ∧
        (accumulate s data).xfers = s.xfers) ∧
      (s.writeBuf.length < s.writeBufPos + data.length →
        writeUart s data timeout = none ∧ loader_port_serial_write s data timeout = none) ∧
      (∀ e s2, loader_port_serial_write s data timeout = some (e, s2) →
        e = ESP_LOADER_SUCCESS) := by
  have hneg : ¬ ((data.length : Int) < 0) := by omega
  refine ⟨?_, ?_, ?_⟩
  · intro h
    have hw : writeUart s data timeout = some ((data.length : Int), accumulate s data) := by
      simp [writeUart, h]
    refine ⟨hw, ?_, ?_, rfl, rfl, rfl⟩
    · simp [loader_port_serial_write, hw, hneg]
    · simp only [accumulate, blit]
      apply List.take_of_length_le
      simp only [List.length_append, List.length_take, List.length_drop]
      omega
  · intro h
    have hw : writeUart s data timeout = none := by
      unfold writeUart
      rw [if_neg (by omega)]
    exact ⟨hw, by simp [loader_port_serial_write, hw]⟩
  · intro e s2 he
    by_cases h : s.writeBufPos + data.length ≤ s.writeBuf.length
    · have hw : writeUart s data timeout = some ((data.length : Int), accumulate s data) := by
        simp [writeUart, h]
      simp [loader_port_serial_write, hw, hneg] at he
      exact he.1.symm
    · have hw : writeUart s data timeout = none := by
        unfold writeUart
        rw [if_neg h]
      simp [loader_port_serial_write, hw] at he

/-- Instance of `write_appends`: three bytes written at the start of the
empty buffer. -/
theorem write_appends_witness :
    Host.init.writeBufPos + [1, 2, 3].length ≤ Host.init.writeBuf.length ∧
      writeUart Host.init [1, 2, 3] 0
        = some ((([1, 2, 3] : List Byte).length : Int), accumulate Host.init [1, 2, 3]) ∧
      (accumulate Host.init [1, 2, 3]).writeBuf
        = Host.init.writeBuf.take Host.init.writeBufPos ++ [1, 2, 3]
            ++ Host.init.writeBuf.drop (Host.init.writeBufPos + [1, 2, 3].length) :=
  have h : Host.init.writeBufPos + [1, 2, 3].length ≤ Host.init.writeBuf.length := by
    rw [init_writeBuf_length]
    decide
  ⟨h, ((write_appends Host.init [1, 2, 3] 0).1 h).1,
    ((write_appends Host.init [1, 2, 3] 0).1 h).2.2.1⟩

/-! ## Length counter of the receive buffer (C15) -/

/-- C15: after `n` bytes arrive at `UART0_ISR` in an empty receive buffer, with
no host read or baud change in between, `bufLenR` is `n mod 32`; it is below
32 (and inside `uartBufR`) before every store; the following ReadUart command
returns exactly the last `n mod 32` bytes received, in order (nothing when 32
divides `n`), and resets `bufLenR` to 0. -/
theorem ring_counter_mod (d : Device) (bs : List Byte) (hempty : d.bufLenR = 0)
    (hR : d.uartBufR.length = 32) (hE : 32 ≤ d.Ep0Buffer.length) :
    (deliver d bs).bufLenR = bs.length % 32 ∧
      (∀ k, k ≤ bs.length →
        (deliver d (bs.take k)).bufLenR = k % 32 ∧
        (deliver d (bs.take k)).bufLenR < 32 ∧
        (deliver d (bs.take k)).bufLenR < (deliver d (bs.take k)).uartBufR.length) ∧
      (handleVendorControlTransfer (deliver d bs) COMMAND_READ_UART 0).1 = bs.length % 32 ∧
      readUartResponse (deliver d bs) = bs.drop (bs.length - bs.length % 32) ∧
      (readUartResponse (deliver d bs)).length = bs.length % 32 ∧
      (bs.length % 32 = 0 → readUartResponse (deliver d bs) = []) ∧
      (handleVendorControlTransfer (deliver d bs) COMMAND_READ_UART 0).2.bufLenR = 0 := by
  obtain ⟨h1, _, _, _⟩ := deliver_ring_state d hempty hR bs
  obtain ⟨r1, r2, r3⟩ := readUart_after_deliver d hempty hR hE bs
  have hle : bs.length % 32 ≤ bs.length := Nat.mod_le _ _
  refine ⟨h1, ?_, r1, r2, ?_, ?_, r3⟩
  · intro k hk
    obtain ⟨k1, k2, _, _⟩ := deliver_ring_state d hempty hR (bs.take k)
    have hlen : (bs.take k).length = k := by rw [List.length_take]; omega
    rw [hlen] at k1
    have hlt : k % 32 < 32 := Nat.mod_lt _ (by decide)
    refine ⟨k1, ?_, ?_⟩
    · rw [k1]; exact hlt
    · rw [k1, k2]; exact hlt
  · rw [r2, List.length_drop]; omega
  · intro hz
    rw [r2, hz]
    simp

/-- Instance of `ring_counter_mod`: 70 bytes into the initial device. -/
theorem ring_counter_mod_witness :
    Device.init.bufLenR = 0 ∧ Device.init.uartBufR.length = 32 ∧
      (deliver Device.init (List.range 70)).bufLenR = (List.range 70).length % 32 ∧
      readUartResponse (deliver Device.init (List.range 70))
        = (List.range 70).drop ((List.range 70).length - (List.range 70).length % 32) :=
  have h := ring_counter_mod Device.init (List.range 70) rfl (by decide) (by decide)
  ⟨rfl, by decide, h.1, h.2.2.2.1⟩

/-! ## A failed progress query (C16) -/

theorem delayNonBlocking_idle : ∀ (n : Nat) (d : Device), d.command = 0 →
    delayNonBlocking n d
      = (1, { d with log := d.log ++ List.replicate n (DevEvent.delay 1) }) := by
  intro n
  induction n with
  | zero => intro d _; simp [delayNonBlocking]
  | succ n ih =>
    intro d hd
    have hc : ¬ (d.command ≠ 0) := fun h => h hd
    have h1 := ih { d with log := d.log ++ [DevEvent.delay 1] } hd
    rw [delayNonBlocking]
    simp only [hc, if_false]
    rw [h1]
    simp [List.replicate_succ]

theorem blink_idle (d : Device) (hd : d.command = 0) :
    blink d = { d with log := d.log ++ List.replicate 200 (DevEvent.delay 1),
                       LED := if d.LED = 0 then 1 else 0 } := by
  unfold blink
  rw [delayNonBlocking_idle 200 d hd]
  simp

theorem handle_set_gpio (d : Device) (pattern : Nat) :
    (handleVendorControlTransfer d COMMAND_SET_GPIO pattern).2
      = { (if pattern = 0 then
            { d with data := pattern, ESP_RESET := 0, log := d.log ++ [DevEvent.reset 0] }
          else { d with data := pattern }) with command := COMMAND_SET_GPIO } := by
  by_cases hp : pattern = 0 <;>
    simp [handleVendorControlTransfer, COMMAND_SET_GPIO, COMMAND_GET_PROGRESS,
      COMMAND_READ_UART, COMMAND_WRITE_UART, hp]

/-- The main-loop iteration that follows the setup handler of a SetGpio
command with parameter byte `p`. -/
theorem set_gpio_iteration (d : Device) (p : Nat) :
    mainLoopIteration (handleVendorControlTransfer d COMMAND_SET_GPIO p).2
      = { (handleVendorControlTransfer d COMMAND_SET_GPIO p).2 with
          command := 0
          data := p / 2 / 2
          ESP_BOOT := p % 2
          ESP_RESET := p / 2 % 2
          ESP_ENABLE := p / 2 / 2 % 2
          LED := if (handleVendorControlTransfer d COMMAND_SET_GPIO p).2.LED = 0 then 1 else 0
          log := (handleVendorControlTransfer d COMMAND_SET_GPIO p).2.log
            ++ [DevEvent.boot (p % 2), DevEvent.delay 2, DevEvent.reset (p / 2 % 2),
                DevEvent.delay 2, DevEvent.enable (p / 2 / 2 % 2)]
            ++ List.replicate 200 (DevEvent.delay 1) } := by
  have hcmd : (handleVendorControlTransfer d COMMAND_SET_GPIO p).2.command = COMMAND_SET_GPIO := by
    rw [handle_set_gpio]
  have hdata : (handleVendorControlTransfer d COMMAND_SET_GPIO p).2.data = p := by
    rw [handle_set_gpio]
    by_cases hp : p = 0 <;> simp [hp]
  generalize (handleVendorControlTransfer d COMMAND_SET_GPIO p).2 = e at hcmd hdata ⊢
  unfold mainLoopIteration dispatch
  rw [hcmd, if_neg (by decide), if_pos rfl, blink_idle _ (by simp [setGpio])]
  simp [setGpio, hdata]

/-- C13, as stated, fails for the pattern 0: over the setup handler followed
by one main-loop iteration the pins are not assigned in the order boot, reset,
enable.  The handler assigns reset first (`ESP_RESET = 0; //priority ESP
reset`), so the assignments are reset, boot, reset, enable, and no delay lies
between the first two. -/
theorem gpio_pattern_zero_resets_first :
    ((mainLoopIteration (handleVendorControlTransfer Device.init COMMAND_SET_GPIO 0).2).log.drop
        Device.init.log.length).take 5
      = [DevEvent.reset 0, DevEvent.boot 0, DevEvent.delay 2, DevEvent.reset 0,
          DevEvent.delay 2] ∧
    pinEvents ((mainLoopIteration
        (handleVendorControlTransfer Device.init COMMAND_SET_GPIO 0).2).log.drop
        Device.init.log.length)
      = [DevEvent.reset 0, DevEvent.boot 0, DevEvent.reset 0, DevEvent.enable 0] ∧
    pinEvents ((mainLoopIteration
        (handleVendorControlTransfer Device.init COMMAND_SET_GPIO 0).2).log.drop
        Device.init.log.length)
      ≠ [DevEvent.boot 0, DevEvent.reset 0, DevEvent.enable 0] := by
  have hlog : (mainLoopIteration
      (handleVendorControlTransfer Device.init COMMAND_SET_GPIO 0).2).log.drop
        Device.init.log.length
      = [DevEvent.reset 0, DevEvent.boot 0, DevEvent.delay 2, DevEvent.reset 0,
          DevEvent.delay 2, DevEvent.enable 0] ++ List.replicate 200 (DevEvent.delay 1) := by
    rw [set_gpio_iteration, handle_set_gpio]
    simp [Device.init]
  have hpins : pinEvents ([DevEvent.reset 0, DevEvent.boot 0, DevEvent.delay 2,
      DevEvent.reset 0, DevEvent.delay 2, DevEvent.enable 0]
        ++ List.replicate 200 (DevEvent.delay 1))
      = [DevEvent.reset 0, DevEvent.boot 0, DevEvent.reset 0, DevEvent.enable 0] := by
    unfold pinEvents
    rw [List.filter_append, List.filter_replicate]
    simp
  rw [hlog, hpins]
  exact ⟨rfl, rfl, by decide⟩

/-- C13, amended: for every parameter byte `pattern` of a SetGpio command, the
setup handler followed by one main-loop iteration leaves boot = bit 0,
reset = bit 1 and enable = bit 2 of `pattern` and an empty mailbox; the
iteration assigns the pins in the order boot, reset, enable with a 2 ms delay
between consecutive pins, then idles for 200 ms.  The handler itself assigns
no pin when `pattern` is not 0, and pulls reset low beforehand when
`pattern = 0`.  The patterns 0, 6 and 7 yield
(boot, reset, enable) = (0, 0, 0), (0, 1, 1) and (1, 1, 1). -/
theorem gpio_pattern_decoded (d : Device) (pattern : Byte) :
    (mainLoopIteration (handleVendorControlTransfer d COMMAND_SET_GPIO pattern).2).ESP_BOOT
        = pattern % 2 ∧
      (mainLoopIteration (handleVendorControlTransfer d COMMAND_SET_GPIO pattern).2).ESP_RESET
        = pattern / 2 % 2 ∧
      (mainLoopIteration (handleVendorControlTransfer d COMMAND_SET_GPIO pattern).2).ESP_ENABLE
        = pattern / 4 % 2 ∧
      (mainLoopIteration (handleVendorControlTransfer d COMMAND_SET_GPIO pattern).2).command = 0 ∧
      (handleVendorControlTransfer d COMMAND_SET_GPIO pattern).2.log
        = d.log ++ (if pattern = 0 then [DevEvent.reset 0] else []) ∧
      (mainLoopIteration (handleVendorControlTransfer d COMMAND_SET_GPIO pattern).2).log
        = (handleVendorControlTransfer d COMMAND_SET_GPIO pattern).2.log
          ++ [DevEvent.boot (pattern % 2), DevEvent.delay 2, DevEvent.reset (pattern / 2 % 2),
              DevEvent.delay 2, DevEvent.enable (pattern / 4 % 2)]
          ++ List.replicate 200 (DevEvent.delay 1) ∧
      ((mainLoopIteration (handleVendorControlTransfer d COMMAND_SET_GPIO 0).2).ESP_BOOT = 0 ∧
        (mainLoopIteration (handleVendorControlTransfer d COMMAND_SET_GPIO 0).2).ESP_RESET = 0 ∧
        (mainLoopIteration (handleVendorControlTransfer d COMMAND_SET_GPIO 0).2).ESP_ENABLE = 0) ∧
      ((mainLoopIteration (handleVendorControlTransfer d COMMAND_SET_GPIO 6).2).ESP_BOOT = 0 ∧
        (mainLoopIteration (handleVendorControlTransfer d COMMAND_SET_GPIO 6).2).ESP_RESET = 1 ∧
        (mainLoopIteration (handleVendorControlTransfer d COMMAND_SET_GPIO 6).2).ESP_ENABLE = 1) ∧
      ((mainLoopIteration (handleVendorControlTransfer d COMMAND_SET_GPIO 7).2).ESP_BOOT = 1 ∧
        (mainLoopIteration (handleVendorControlTransfer d COMMAND_SET_GPIO 7).2).ESP_RESET = 1 ∧
        (mainLoopIteration (handleVendorControlTransfer d COMMAND_SET_GPIO 7).2).ESP_ENABLE = 1) := by
  have key := set_gpio_iteration d
  have hdiv : pattern / 2 / 2 = pattern / 4 := Nat.div_div_eq_div_mul _ _ _
  refine ⟨?_, ?_, ?_, ?_, ?_, ?_, ⟨?_, ?_, ?_⟩, ⟨?_, ?_, ?_⟩, ⟨?_, ?_, ?_⟩⟩
  · rw [key]
  · rw [key]
  · rw [key, ← hdiv]
  · rw [key]
  · rw [handle_set_gpio]
    by_cases hp : pattern = 0 <;> simp [hp]
  · rw [key, ← hdiv]
  all_goals rw [key]

/-! ## Short WriteUart transfers (C12) -/

/-- A progress query overwrites `resBuf` with the zero-padded response and
leaves the staging cursor and length as they were. -/
theorem usbIoFinished_staging (tp : Transport) (s : Host) :
    (usbIoFinished tp s).2.resBuf
        = ((tp.inp s.xfers COMMAND_GET_PROGRESS 0 0).2 ++ List.replicate MAX_PACKET_LEN 0).take
            MAX_PACKET_LEN ∧
      (usbIoFinished tp s).2.resBufPos = s.resBufPos ∧
      (usbIoFinished tp s).2.resBufMax = s.resBufMax :=
  ⟨rfl, rfl, rfl⟩

/-- The operations that make no device-to-host transfer (write, enter
bootloader, reset target, change baud rate, and a flush of the empty buffer)
leave `resBuf`, the cursor and the staged length unchanged. -/
theorem staging_kept_without_polling (tp : Transport) (s : Host) (data : List Byte)
    (timeout : Int) (baudrate fuel : Nat) :
    (∀ r, writeUart s data timeout = some r →
        r.2.resBuf = s.resBuf ∧ r.2.resBufPos = s.resBufPos ∧ r.2.resBufMax = s.resBufMax) ∧
      ((loader_port_enter_bootloader tp s).resBuf = s.resBuf ∧
        (loader_port_enter_bootloader tp s).resBufPos = s.resBufPos ∧
        (loader_port_enter_bootloader tp s).resBufMax = s.resBufMax) ∧
      ((loader_port_reset_target tp s).resBuf = s.resBuf ∧
        (loader_port_reset_target tp s).resBufPos = s.resBufPos ∧
        (loader_port_reset_target tp s).resBufMax = s.resBufMax) ∧
      ((loader_port_change_baudrate tp s baudrate).2.resBuf = s.resBuf ∧
        (loader_port_change_baudrate tp s baudrate).2.resBufPos = s.resBufPos ∧
        (loader_port_change_baudrate tp s baudrate).2.resBufMax = s.resBufMax) ∧
      (s.writeBufPos = 0 →
        ∃ s2, flushUart tp (fuel + 1) s timeout = some (0, s2) ∧
          s2.resBuf = s.resBuf ∧ s2.resBufPos = s.resBufPos ∧ s2.resBufMax = s.resBufMax) := by
  refine ⟨?_, ⟨rfl, rfl, rfl⟩, ⟨rfl, rfl, rfl⟩, ?_, ?_⟩
  · intro r hr
    unfold writeUart at hr
    split at hr
    · obtain rfl := Option.some.inj hr
      exact ⟨rfl, rfl, rfl⟩
    · exact Option.noConfusion hr
  · unfold loader_port_change_baudrate
    simp only
    split_ifs <;> exact ⟨rfl, rfl, rfl⟩
  · intro hempty
    exact ⟨{ s with writeBufPos := 0, readDelay := 1 }, by simp [flushUart, flushLoop, hempty],
      rfl, rfl, rfl⟩

/-- C11 fails on the code: with the three unread bytes 7, 8, 9 staged (a read
would return them), a flush of one buffered byte polls GetProgress, which
zeroes `resBuf` while the cursor and the staged length stay at 0 and 3; the
next read of three bytes then makes no transfer and returns 0, 0, 0 instead of
7, 8, 9. -/
theorem flush_clobbers_staged_bytes :
    (readUart idleDevice
        { Host.init with resBuf := [7, 8, 9] ++ List.replicate 29 0, resBufMax := 3 }
        [238, 238, 238] 3 100).2.2 = [7, 8, 9] ∧
      (flushUart idleDevice 2
        { Host.init with resBuf := [7, 8, 9] ++ List.replicate 29 0, resBufMax := 3,
                         writeBuf := [1] ++ List.replicate 4095 0, writeBufPos := 1 } 5000).map
          (fun r => (r.1, r.2.resBufPos, r.2.resBufMax, r.2.resBuf.take 3,
            (readUart idleDevice r.2 [238, 238, 238] 3 100).1,
            (readUart idleDevice r.2 [238, 238, 238] 3 100).2.2,
            (readUart idleDevice r.2 [238, 238, 238] 3 100).2.1.xfers - r.2.xfers))
        = some (1, 0, 3, [0, 0, 0], 0, [0, 0, 0], 0) := by
  constructor <;> rfl

/-! ## The single-slot mailbox (C14) -/

theorem txBytes_append (a b : List DevEvent) : txBytes (a ++ b) = txBytes a ++ txBytes b := by
  simp [txBytes]

theorem pinEvents_append (a b : List DevEvent) :
    pinEvents (a ++ b) = pinEvents a ++ pinEvents b := by
  simp [pinEvents]

theorem txBytes_delays (n : Nat) : txBytes (List.replicate n (DevEvent.delay 1)) = [] := by
  induction n with
  | zero => rfl
  | succ n ih => rw [List.replicate_succ]; exact ih

theorem pinEvents_delays (n : Nat) : pinEvents (List.replicate n (DevEvent.delay 1)) = [] := by
  induction n with
  | zero => rfl
  | succ n ih => rw [List.replicate_succ]; exact ih

theorem txBytes_map_tx (l : List Byte) : txBytes (l.map DevEvent.tx) = l := by
  induction l with
  | nil => rfl
  | cons a l ih => simp only [List.map_cons, txBytes, List.filterMap_cons] at ih ⊢; rw [ih]

theorem pinEvents_map_tx (l : List Byte) : pinEvents (l.map DevEvent.tx) = [] := by
  induction l with
  | nil => rfl
  | cons a l ih => simp only [List.map_cons, pinEvents, List.filter_cons] at ih ⊢; exact ih

/-- The transmit loop puts `uartBufW[i .. i + k)` on the UART, in order. -/
theorem putChars_spec (k : Nat) : ∀ (n : Nat) (d : Device) (i : Nat),
    k ≤ n → i + k = d.bufLenW → d.bufLenW ≤ d.uartBufW.length →
    putChars n d i
      = { d with log := d.log ++ ((d.uartBufW.drop i).take k).map DevEvent.tx } := by
  induction k with
  | zero =>
    intro n d i _ hi _
    have hni : ¬ (i < d.bufLenW) := by omega
    cases n <;> simp [putChars, hni]
  | succ k ih =>
    intro n d i hn hi hW
    obtain ⟨n, rfl⟩ : ∃ n1, n = n1 + 1 := ⟨n - 1, by omega⟩
    have hc : i < d.bufLenW := by omega
    have hlt : i < d.uartBufW.length := by omega
    rw [putChars, if_pos hc]
    have hd : (d.uartBufW.drop i).take (k + 1)
        = d.uartBufW[i] :: (d.uartBufW.drop (i + 1)).take k := by
      rw [List.drop_eq_getElem_cons hlt, List.take_succ_cons]
    rw [ih n _ (i + 1) (by omega) (by simpa using by omega) (by simpa using hW)]
    rw [hd, List.getD_eq_getElem _ _ hlt]
    simp

/-- The firmware's `writeUart` transmits the first `bufLenW` bytes of
`uartBufW` and clears `bufLenW`. -/
theorem device_writeUart_spec (d : Device) (hW : d.bufLenW ≤ d.uartBufW.length) :
    Firmware.writeUart d
      = { d with bufLenW := 0, log := d.log ++ (d.uartBufW.take d.bufLenW).map DevEvent.tx } := by
  unfold Firmware.writeUart
  rw [putChars_spec d.bufLenW d.bufLenW d 0 le_rfl (by omega) hW]
  simp

/-- What the interrupt handlers of one command leave untouched, and what they
leave in the mailbox. -/
theorem usbInterrupt_frame (d : Device) (c : MailboxCommand) :
    (usbInterrupt d c).command = c.opcode ∧
      (usbInterrupt d c).uartBufW.length = d.uartBufW.length ∧
      (usbInterrupt d c).Ep0Buffer.length = d.Ep0Buffer.length ∧
      (usbInterrupt d c).baud = d.baud ∧
      (usbInterrupt d c).ESP_BOOT = d.ESP_BOOT ∧
      (usbInterrupt d c).ESP_ENABLE = d.ESP_ENABLE ∧
      txBytes (usbInterrupt d c).log = txBytes d.log := by
  cases c with
  | writeUart payload =>
    simp [usbInterrupt, handleVendorDataTransfer, handleVendorControlTransfer,
      MailboxCommand.opcode, COMMAND_WRITE_UART, COMMAND_GET_PROGRESS, COMMAND_READ_UART,
      blit_length]
  | setGpio pattern =>
    simp only [usbInterrupt, handle_set_gpio, MailboxCommand.opcode]
    by_cases hp : pattern = 0 <;> simp [hp, txBytes]
  | setBaudr sel =>
    simp [usbInterrupt, handleVendorControlTransfer, MailboxCommand.opcode, COMMAND_SET_BAUDR,
      COMMAND_WRITE_UART, COMMAND_GET_PROGRESS, COMMAND_READ_UART, COMMAND_SET_GPIO]

/-- One main-loop iteration after the handlers of a single command ran on the
state `e`: what it transmits, which pins it assigns, the pins and the baud rate
afterwards. -/
theorem iteration_after_command (e : Device) (c : MailboxCommand)
    (hW : e.uartBufW.length = 32) (hE : 32 ≤ e.Ep0Buffer.length)
    (hlen : (actionTx c).length ≤ 32) :
    (mainLoopIteration (usbInterrupt e c)).command = 0 ∧
      txBytes (mainLoopIteration (usbInterrupt e c)).log = txBytes e.log ++ actionTx c ∧
      pinEvents (mainLoopIteration (usbInterrupt e c)).log
        = pinEvents (usbInterrupt e c).log ++ actionPinEvents c ∧
      pins (mainLoopIteration (usbInterrupt e c)) = actionPins c (pins (usbInterrupt e c)) ∧
      (mainLoopIteration (usbInterrupt e c)).baud = actionBaud c e.baud := by
  cases c with
  | writeUart payload =>
    have hp : payload.length ≤ 32 := hlen
    have hpe : payload.length ≤ e.Ep0Buffer.length := by omega
    have hpw : payload.length ≤ e.uartBufW.length := by omega
    have hmod : payload.length % 256 = payload.length := by omega
    have hint : usbInterrupt e (MailboxCommand.writeUart payload)
        = { e with
            Ep0Buffer := blit e.Ep0Buffer 0 payload
            inProgress := 1
            uartBufW := blit e.uartBufW 0 payload
            bufLenW := payload.length
            command := COMMAND_WRITE_UART
            LED := 0 } := by
      simp [usbInterrupt, handleVendorDataTransfer, handleVendorControlTransfer,
        COMMAND_WRITE_UART, COMMAND_GET_PROGRESS, COMMAND_READ_UART, hmod,
        blit_zero_take _ _ hpe]
    have hiter : mainLoopIteration (usbInterrupt e (MailboxCommand.writeUart payload))
        = { e with
            Ep0Buffer := blit e.Ep0Buffer 0 payload
            inProgress := 0
            uartBufW := blit e.uartBufW 0 payload
            bufLenW := 0
            command := 0
            LED := 1
            log := e.log ++ payload.map DevEvent.tx ++ List.replicate 200 (DevEvent.delay 1) } := by
      rw [hint]
      unfold mainLoopIteration dispatch
      rw [if_pos rfl, device_writeUart_spec _ (by simp [blit_length]; omega),
        blink_idle _ rfl]
      simp [blit_zero_take _ _ hpw]
    rw [hiter, hint]
    refine ⟨rfl, ?_, ?_, rfl, rfl⟩
    · simp only [txBytes_append, txBytes_map_tx, txBytes_delays, List.append_nil, actionTx]
    · simp only [pinEvents_append, pinEvents_map_tx, pinEvents_delays, List.append_nil,
        actionPinEvents]
  | setGpio pattern =>
    have hcmd : (usbInterrupt e (MailboxCommand.setGpio pattern)).command = COMMAND_SET_GPIO :=
      (usbInterrupt_frame e _).1
    have hdata : (usbInterrupt e (MailboxCommand.setGpio pattern)).data = pattern := by
      simp only [usbInterrupt, handle_set_gpio]
      by_cases hp : pattern = 0 <;> simp [hp]
    have htx := (usbInterrupt_frame e (MailboxCommand.setGpio pattern)).2.2.2.2.2.2
    have hbaud := (usbInterrupt_frame e (MailboxCommand.setGpio pattern)).2.2.2.1
    have hdiv : pattern / 2 / 2 = pattern / 4 := Nat.div_div_eq_div_mul _ _ _
    generalize usbInterrupt e (MailboxCommand.setGpio pattern) = g at hcmd hdata htx hbaud ⊢
    have hiter : mainLoopIteration g
        = { g with
            command := 0
            data := pattern / 4
            ESP_BOOT := pattern % 2
            ESP_RESET := pattern / 2 % 2
            ESP_ENABLE := pattern / 4 % 2
            LED := if g.LED = 0 then 1 else 0
            log := g.log
              ++ [DevEvent.boot (pattern % 2), DevEvent.delay 2, DevEvent.reset (pattern / 2 % 2),
                  DevEvent.delay 2, DevEvent.enable (pattern / 4 % 2)]
              ++ List.replicate 200 (DevEvent.delay 1) } := by
      unfold mainLoopIteration dispatch
      rw [hcmd, if_neg (by decide), if_pos rfl, blink_idle _ (by simp [setGpio])]
      simp [setGpio, hdata, hdiv]
    rw [hiter]
    refine ⟨rfl, ?_, ?_, rfl, hbaud⟩
    · rw [txBytes_append, txBytes_append, txBytes_delays, List.append_nil, htx]
      simp [txBytes, actionTx]
    · rw [pinEvents_append, pinEvents_append, pinEvents_delays, List.append_nil]
      simp [pinEvents, actionPinEvents]
  | setBaudr sel =>
    have hint : usbInterrupt e (MailboxCommand.setBaudr sel)
        = { e with data := sel, command := COMMAND_SET_BAUDR } := by
      simp [usbInterrupt, handleVendorControlTransfer, COMMAND_SET_BAUDR, COMMAND_WRITE_UART,
        COMMAND_GET_PROGRESS, COMMAND_READ_UART, COMMAND_SET_GPIO]
    have hiter : mainLoopIteration (usbInterrupt e (MailboxCommand.setBaudr sel))
        = { e with
            data := sel
            command := 0
            bufLenR := 0
            baud := if sel = 0 then 74880 else 115200
            LED := if e.LED = 0 then 1 else 0
            log := e.log ++ List.replicate 200 (DevEvent.delay 1) } := by
      have hne1 : ¬ (COMMAND_SET_BAUDR = COMMAND_WRITE_UART) := by decide
      have hne2 : ¬ (COMMAND_SET_BAUDR = COMMAND_SET_GPIO) := by decide
      rw [hint]
      unfold mainLoopIteration dispatch
      dsimp only
      rw [if_neg hne1, if_neg hne2, if_pos rfl, blink_idle _ rfl]
    rw [hiter, hint]
    refine ⟨rfl, ?_, ?_, rfl, rfl⟩
    · simp only [txBytes_append, txBytes_delays, List.append_nil, actionTx]
    · simp only [pinEvents_append, pinEvents_delays, List.append_nil, actionPinEvents]

/-- Main-loop iterations with an empty mailbox transmit nothing, assign no pin
and keep the baud rate and the mailbox as they are. -/
theorem idle_iterations : ∀ (k : Nat) (d : Device), d.command = 0 →
    (mainLoopIteration^[k] d).command = 0 ∧
      txBytes (mainLoopIteration^[k] d).log = txBytes d.log ∧
      pinEvents (mainLoopIteration^[k] d).log = pinEvents d.log ∧
      pins (mainLoopIteration^[k] d) = pins d ∧
      (mainLoopIteration^[k] d).baud = d.baud := by
  intro k
  induction k with
  | zero => intro d hd; exact ⟨hd, rfl, rfl, rfl, rfl⟩
  | succ k ih =>
    intro d hd
    have hstep : mainLoopIteration d
        = { d with log := d.log ++ List.replicate 200 (DevEvent.delay 1),
                   LED := if d.LED = 0 then 1 else 0 } := by
      have h1 : ¬ (d.command = COMMAND_WRITE_UART) := by rw [hd]; decide
      have h2 : ¬ (d.command = COMMAND_SET_GPIO) := by rw [hd]; decide
      have h3 : ¬ (d.command = COMMAND_SET_BAUDR) := by rw [hd]; decide
      unfold mainLoopIteration dispatch
      rw [if_neg h1, if_neg h2, if_neg h3, blink_idle _ hd]
    rw [Function.iterate_succ_apply]
    obtain ⟨h1, h2, h3, h4, h5⟩ := ih (mainLoopIteration d) (by rw [hstep]; exact hd)
    refine ⟨h1, ?_, ?_, ?_, ?_⟩
    · rw [h2, hstep]
      simp only [txBytes_append, txBytes_delays, List.append_nil]
    · rw [h3, hstep]
      simp only [pinEvents_append, pinEvents_delays, List.append_nil]
    · rw [h4, hstep]; rfl
    · rw [h5, hstep]

theorem usbInterrupt_pinEvents (d : Device) (c : MailboxCommand) :
    pinEvents (usbInterrupt d c).log = pinEvents d.log ++ handlerPinEvents c := by
  cases c with
  | writeUart payload =>
    simp [usbInterrupt, handleVendorDataTransfer, handleVendorControlTransfer,
      COMMAND_WRITE_UART, COMMAND_GET_PROGRESS, COMMAND_READ_UART, handlerPinEvents]
  | setGpio pattern =>
    simp only [usbInterrupt, handle_set_gpio, handlerPinEvents]
    by_cases hp : pattern = 0 <;> simp [hp, pinEvents]
  | setBaudr sel =>
    simp [usbInterrupt, handleVendorControlTransfer, COMMAND_SET_BAUDR, COMMAND_WRITE_UART,
      COMMAND_GET_PROGRESS, COMMAND_READ_UART, COMMAND_SET_GPIO, handlerPinEvents]

/-- C14: two mailbox commands `c1`, `c2` (a WriteUart data stage of at most 32
bytes, SetGpio or SetBaudRate) are delivered by the USB interrupt handlers
back-to-back with no main-loop iteration in between.  The mailbox then holds
the opcode of `c2`; after the next main-loop iteration and after every later
one the mailbox is empty, the UART has carried exactly the bytes of the action
of `c2`, the main loop has assigned exactly the pins of the action of `c2`,
and the pins and the baud rate are those the action of `c2` leaves: the action
of `c1` is never run.  (The setup handlers themselves only pull reset low for
a SetGpio with pattern 0.) -/
theorem mailbox_last_writer_wins (d : Device) (c1 c2 : MailboxCommand)
    (hW : d.uartBufW.length = 32) (hE : 32 ≤ d.Ep0Buffer.length)
    (hlen : (actionTx c2).length ≤ 32) :
    (usbInterrupt (usbInterrupt d c1) c2).command = c2.opcode ∧
      pinEvents (usbInterrupt (usbInterrupt d c1) c2).log
        = pinEvents d.log ++ handlerPinEvents c1 ++ handlerPinEvents c2 ∧
      ∀ k : Nat,
        (mainLoopIteration^[k + 1] (usbInterrupt (usbInterrupt d c1) c2)).command = 0 ∧
        txBytes (mainLoopIteration^[k + 1] (usbInterrupt (usbInterrupt d c1) c2)).log
          = txBytes d.log ++ actionTx c2 ∧
        pinEvents (mainLoopIteration^[k + 1] (usbInterrupt (usbInterrupt d c1) c2)).log
          = pinEvents (usbInterrupt (usbInterrupt d c1) c2).log ++ actionPinEvents c2 ∧
        pins (mainLoopIteration^[k + 1] (usbInterrupt (usbInterrupt d c1) c2))
          = actionPins c2 (pins (usbInterrupt (usbInterrupt d c1) c2)) ∧
        (mainLoopIteration^[k + 1] (usbInterrupt (usbInterrupt d c1) c2)).baud
          = actionBaud c2 d.baud := by
  obtain ⟨_, f2, f3, f4, _, _, f7⟩ := usbInterrupt_frame d c1
  obtain ⟨i1, i2, i3, i4, i5⟩ := iteration_after_command (usbInterrupt d c1) c2
    (by rw [f2]; exact hW) (by rw [f3]; exact hE) hlen
  refine ⟨(usbInterrupt_frame _ c2).1, ?_, ?_⟩
  · rw [usbInterrupt_pinEvents, usbInterrupt_pinEvents]
  · intro k
    rw [Function.iterate_succ_apply]
    obtain ⟨j1, j2, j3, j4, j5⟩ := idle_iterations k _ i1
    refine ⟨j1, ?_, ?_, ?_, ?_⟩
    · rw [j2, i2, f7]
    · rw [j3, i3]
    · rw [j4, i4]
    · rw [j5, i5, f4]

/-- Instance of `mailbox_last_writer_wins`: a three-byte WriteUart followed by
SetGpio 6 on the initial device; nothing is ever transmitted. -/
theorem mailbox_last_writer_wins_witness :
    Device.init.uartBufW.length = 32 ∧ 32 ≤ Device.init.Ep0Buffer.length ∧
      (actionTx (MailboxCommand.setGpio 6)).length ≤ 32 ∧
      txBytes (mainLoopIteration^[1 + 1]
        (usbInterrupt (usbInterrupt Device.init (MailboxCommand.writeUart [1, 2, 3]))
          (MailboxCommand.setGpio 6))).log
        = txBytes Device.init.log ++ actionTx (MailboxCommand.setGpio 6) :=
  ⟨by decide, by decide, by decide,
    ((mailbox_last_writer_wins Device.init (MailboxCommand.writeUart [1, 2, 3])
      (MailboxCommand.setGpio 6) (by decide) (by decide) (by decide)).2.2 1).2.1⟩

end EspUploader
